import Mathlib

/-!
Shallow embedding of the request-ledger library (a durable client-side HTTP
request outbox) and proofs about its replay engine, retry policy, storage
layer and facade.

The embedding follows the TypeScript sources:
  - src/types.ts              : data model (LedgerEntry, patches, strategies)
  - src/utils/backoff.ts      : calculateBackoffDelay, canRetry
  - src/online/checker.ts     : isNetworkError, isRetryableStatusCode, isClientError
  - src/storage/indexeddb.ts  : IndexedDBStorage (put / get / getAll / update /
                                remove, eviction, JSON serialization of
                                body and metadata)
  - replay engine             : processEntry, canRetryEntry, markAsFailed,
                                recoverStaleEntries, process (drain loop)
  - facade (RequestLedger)    : request, retry

JavaScript numbers appearing as counters and timestamps (attemptCount,
createdAt, lastAttemptAt, maxAttempts, delays) are modelled as Nat; JSON
document numbers are modelled as Int (the library only passes them through).
Promise-based code is modelled by explicit state passing: a function that can
throw returns an `Except` (or a pair tagging the error) together with the
resulting store where it mutates state.  `fetch` and the online probe are
external collaborators and enter as oracle parameters.
-/

/-! ## JSON values

`JSON.stringify` / `JSON.parse` are the host platform's serializer, used by
the storage layer for `request.body` and `metadata`.  JSON-serializable
values are modelled by the mutual inductive `Json` (numbers restricted to
integers), rendering by `Json.render`, parsing by `parseJson`. -/

mutual
inductive Json where
  | null : Json
  | bool : Bool → Json
  | num : Int → Json
  | str : List Char → Json
  | arr : JsonList → Json
  | obj : JsonObj → Json
  deriving DecidableEq

inductive JsonList where
  | nil : JsonList
  | cons : Json → JsonList → JsonList
  deriving DecidableEq

inductive JsonObj where
  | nil : JsonObj
  | cons : List Char → Json → JsonObj → JsonObj
  deriving DecidableEq
end

/-- The double-quote character. -/
def quoteCh : Char := Char.ofNat 34

/-- The backslash character. -/
def backslashCh : Char := Char.ofNat 92

/-- The opening-brace character. -/
def lbraceCh : Char := Char.ofNat 123

/-- The closing-brace character. -/
def rbraceCh : Char := Char.ofNat 125

/-- Decimal digit to its character. -/
def digitToChar (d : Nat) : Char := Char.ofNat (48 + d)

/-- Render a natural number in decimal (most significant digit first). -/
def renderNat (n : Nat) : List Char :=
  if n = 0 then [ '0' ] else ((Nat.digits 10 n).map digitToChar).reverse

/-- Render an integer in decimal, as JSON.stringify does for integral numbers. -/
def renderInt : Int → List Char
  | Int.ofNat n => renderNat n
  | Int.negSucc m => '-' :: renderNat (m + 1)

/-- Escape the JSON string metacharacters (quote and backslash). -/
def escapeStr : List Char → List Char
  | [] => []
  | c :: t =>
    if c = quoteCh ∨ c = backslashCh then backslashCh :: c :: escapeStr t
    else c :: escapeStr t

/-- Render a JSON object key together with its trailing colon. -/
def renderKey (k : List Char) : List Char :=
  quoteCh :: escapeStr k ++ [quoteCh, ':']

mutual
/-- Render a JSON value to text, as JSON.stringify does (no whitespace). -/
def Json.render : Json → List Char
  | Json.null => [ 'n', 'u', 'l', 'l' ]
  | Json.bool true => [ 't', 'r', 'u', 'e' ]
  | Json.bool false => [ 'f', 'a', 'l', 's', 'e' ]
  | Json.num i => renderInt i
  | Json.str s => quoteCh :: escapeStr s ++ [quoteCh]
  | Json.arr JsonList.nil => [ '[', ']' ]
  | Json.arr (JsonList.cons h t) => '[' :: (Json.render h ++ JsonList.renderTail t)
  | Json.obj JsonObj.nil => [lbraceCh, rbraceCh]
  | Json.obj (JsonObj.cons k v t) =>
      lbraceCh :: (renderKey k ++ Json.render v ++ JsonObj.renderTail t)

/-- Render the remaining elements of an array, including the closing bracket. -/
def JsonList.renderTail : JsonList → List Char
  | JsonList.nil => [ ']' ]
  | JsonList.cons h t => ',' :: (Json.render h ++ JsonList.renderTail t)

/-- Render the remaining members of an object, including the closing brace. -/
def JsonObj.renderTail : JsonObj → List Char
  | JsonObj.nil => [rbraceCh]
  | JsonObj.cons k v t => ',' :: (renderKey k ++ Json.render v ++ JsonObj.renderTail t)
end

mutual
/-- Recursion depth of the parser on a rendered value, used to bound the
fuel it needs. -/
def Json.weight : Json → Nat
  | Json.null => 1
  | Json.bool _ => 1
  | Json.num _ => 1
  | Json.str _ => 1
  | Json.arr JsonList.nil => 1
  | Json.arr (JsonList.cons h t) => 1 + max (Json.weight h) (JsonList.weightL t)
  | Json.obj JsonObj.nil => 1
  | Json.obj (JsonObj.cons _ v t) => 1 + max (Json.weight v) (JsonObj.weightO t)

/-- Parser recursion depth for an array tail. -/
def JsonList.weightL : JsonList → Nat
  | JsonList.nil => 1
  | JsonList.cons h t => 1 + max (Json.weight h) (JsonList.weightL t)

/-- Parser recursion depth for an object tail. -/
def JsonObj.weightO : JsonObj → Nat
  | JsonObj.nil => 1
  | JsonObj.cons _ v t => 1 + max (Json.weight v) (JsonObj.weightO t)
end

/-- Is a character a decimal digit. -/
def isDigitCh (c : Char) : Bool := decide (48 ≤ c.toNat) && decide (c.toNat ≤ 57)

/-- Numeric value of a big-endian digit string. -/
def digitsVal (ds : List Char) : Nat :=
  ds.foldl (fun a c => 10 * a + (c.toNat - 48)) 0

/-- Does the input start with a decimal digit. -/
def headIsDigit : List Char → Bool
  | [] => false
  | c :: _ => isDigitCh c

/-- Parse a (possibly negated) decimal integer off the front of the input. -/
def parseNumber (cs : List Char) : Option (Int × List Char) :=
  match cs with
  | [] => none
  | c :: rest =>
    if c = '-' then
      let ds := rest.takeWhile isDigitCh
      if ds.isEmpty then none
      else some (-(digitsVal ds : Int), rest.dropWhile isDigitCh)
    else
      let ds := (c :: rest).takeWhile isDigitCh
      if ds.isEmpty then none
      else some ((digitsVal ds : Int), (c :: rest).dropWhile isDigitCh)

/-- Parse the body of a JSON string after the opening quote, handling the
two escapes the renderer produces; returns the content and the input after
the closing quote. -/
def parseStrBody : List Char → Option (List Char × List Char)
  | [] => none
  | c :: rest =>
    if c = quoteCh then some ([], rest)
    else if c = backslashCh then
      match rest with
      | [] => none
      | e :: rest2 =>
        if e = quoteCh ∨ e = backslashCh then
          match parseStrBody rest2 with
          | some (s, r) => some (e :: s, r)
          | none => none
        else none
    else
      match parseStrBody rest with
      | some (s, r) => some (c :: s, r)
      | none => none

mutual
/-- Fueled recursive-descent parse of one JSON value; returns the value and
the unconsumed tail. -/
def parseVal : Nat → List Char → Option (Json × List Char)
  | 0, _ => none
  | fuel + 1, cs =>
    match cs with
    | [] => none
    | c :: rest =>
      if c = 'n' then
        if rest.take 3 = [ 'u', 'l', 'l' ] then some (Json.null, rest.drop 3) else none
      else if c = 't' then
        if rest.take 3 = [ 'r', 'u', 'e' ] then some (Json.bool true, rest.drop 3) else none
      else if c = 'f' then
        if rest.take 4 = [ 'a', 'l', 's', 'e' ] then some (Json.bool false, rest.drop 4) else none
      else if c = quoteCh then
        match parseStrBody rest with
        | some (s, r) => some (Json.str s, r)
        | none => none
      else if c = '[' then
        match rest with
        | [] => none
        | c2 :: r2 =>
          if c2 = ']' then some (Json.arr JsonList.nil, r2)
          else
            match parseVal fuel rest with
            | some (v, r3) =>
              match parseListTail fuel r3 with
              | some (tl, r4) => some (Json.arr (JsonList.cons v tl), r4)
              | none => none
            | none => none
      else if c = lbraceCh then
        match rest with
        | [] => none
        | c2 :: r2 =>
          if c2 = rbraceCh then some (Json.obj JsonObj.nil, r2)
          else if c2 = quoteCh then
            match parseStrBody r2 with
            | some (k, r3) =>
              match r3 with
              | ':' :: r4 =>
                match parseVal fuel r4 with
                | some (v, r5) =>
                  match parseObjTail fuel r5 with
                  | some (o, r6) => some (Json.obj (JsonObj.cons k v o), r6)
                  | none => none
                | none => none
              | _ => none
            | none => none
          else none
      else
        match parseNumber (c :: rest) with
        | some (i, r) => some (Json.num i, r)
        | none => none

/-- Parse the tail of an array (after the first element): a comma-separated
list of values up to and including the closing bracket. -/
def parseListTail : Nat → List Char → Option (JsonList × List Char)
  | 0, _ => none
  | fuel + 1, cs =>
    match cs with
    | [] => none
    | c :: rest =>
      if c = ']' then some (JsonList.nil, rest)
      else if c = ',' then
        match parseVal fuel rest with
        | some (v, r2) =>
          match parseListTail fuel r2 with
          | some (tl, r3) => some (JsonList.cons v tl, r3)
          | none => none
        | none => none
      else none

/-- Parse the tail of an object (after the first member) up to and including
the closing brace. -/
def parseObjTail : Nat → List Char → Option (JsonObj × List Char)
  | 0, _ => none
  | fuel + 1, cs =>
    match cs with
    | [] => none
    | c :: rest =>
      if c = rbraceCh then some (JsonObj.nil, rest)
      else if c = ',' then
        match rest with
        | [] => none
        | c2 :: r2 =>
          if c2 = quoteCh then
            match parseStrBody r2 with
            | some (k, r3) =>
              match r3 with
              | ':' :: r4 =>
                match parseVal fuel r4 with
                | some (v, r5) =>
                  match parseObjTail fuel r5 with
                  | some (o, r6) => some (JsonObj.cons k v o, r6)
                  | none => none
                | none => none
              | _ => none
            | none => none
          else none
      else none
end

/-- Model of the host JSON.parse applied to a complete document: parse one
value and require the whole input consumed. -/
def parseJson (cs : List Char) : Option Json :=
  match parseVal (cs.length + 1) cs with
  | some (v, []) => some v
  | _ => none

/-! ## Data model (src/types.ts) -/

/-- Entry lifecycle status (types.ts `EntryStatus`). -/
inductive EntryStatus where
  | pending
  | processing
  | completed
  | failed
  deriving DecidableEq

/-- Error information stored with a failed entry (types.ts `EntryError`). -/
structure EntryError where
  message : String
  code : Option String
  deriving DecidableEq

/-- The HTTP request snapshot stored in an entry (types.ts `StoredRequest`).
The body is an arbitrary JSON-serializable value or absent. -/
structure StoredRequest where
  url : String
  method : String
  headers : List (String × String)
  body : Option Json
  deriving DecidableEq

/-- A single ledger entry (types.ts `LedgerEntry`).  `metadata` is typed
`Record<string, unknown>` in the source, i.e. a JSON object when present. -/
structure LedgerEntry where
  id : String
  request : StoredRequest
  status : EntryStatus
  attemptCount : Nat
  createdAt : Nat
  lastAttemptAt : Option Nat
  error : Option EntryError
  idempotencyKey : Option String
  metadata : Option JsonObj
  deriving DecidableEq

/-- Partial update for an entry (types.ts `LedgerEntryPatch`).  For `error`
the source distinguishes an omitted key from a key explicitly present with
value `undefined`; that is `none` versus `some none` here.  For the other
fields the source tests `!== undefined`, so omitted and explicitly-undefined
coincide and a plain `Option` suffices. -/
structure LedgerEntryPatch where
  status : Option EntryStatus := none
  attemptCount : Option Nat := none
  lastAttemptAt : Option Nat := none
  error : Option (Option EntryError) := none

/-! ## Failure classification (src/online/checker.ts) -/

/-- Classification of a thrown JavaScript error: `isNetworkError` in
checker.ts returns true exactly for network-classified errors (fetch
TypeErrors with browser network messages, and AbortError DOMExceptions);
everything else is non-network. -/
inductive JsErrorKind where
  | network
  | nonNetwork
  deriving DecidableEq

/-- checker.ts `isNetworkError`, abstracted over the error taxonomy: the
classification an error carries. -/
def isNetworkError : JsErrorKind → Bool
  | JsErrorKind.network => true
  | JsErrorKind.nonNetwork => false

/-- checker.ts `isRetryableStatusCode`: true for the 5xx class. -/
def isRetryableStatusCode (status : Nat) : Bool :=
  decide (500 ≤ status) && decide (status < 600)

/-- checker.ts `isClientError`: true for the 4xx class. -/
def isClientError (status : Nat) : Bool :=
  decide (400 ≤ status) && decide (status < 500)

/-! ## Retry policy (src/utils/backoff.ts) -/

/-- Retry strategy descriptor (types.ts `RetryStrategy`). -/
inductive RetryStrategy where
  | fixed (delayMs : Nat) (maxAttempts : Nat)
  | exponential (baseMs : Nat) (maxMs : Nat) (maxAttempts : Nat)
  | manual
  deriving DecidableEq

/-- backoff.ts `calculateBackoffDelay`: delay before the next retry, or
`none` ("stop") when the budget is exhausted or the strategy is manual.
`attemptCount` is 1-indexed (the count after the attempt that just failed). -/
def calculateBackoffDelay (strategy : RetryStrategy) (attemptCount : Nat) : Option Nat :=
  match strategy with
  | RetryStrategy.fixed delayMs maxAttempts =>
      if attemptCount ≥ maxAttempts then none else some delayMs
  | RetryStrategy.exponential baseMs maxMs maxAttempts =>
      if attemptCount ≥ maxAttempts then none
      else some (min (baseMs * 2 ^ (attemptCount - 1)) maxMs)
  | RetryStrategy.manual => none

/-- backoff.ts `canRetry`: whether more attempts are allowed (always true for
the manual strategy, whose retries are user-triggered). -/
def canRetry (strategy : RetryStrategy) (attemptCount : Nat) : Bool :=
  match strategy with
  | RetryStrategy.manual => true
  | RetryStrategy.fixed _ maxAttempts => decide (attemptCount < maxAttempts)
  | RetryStrategy.exponential _ _ maxAttempts => decide (attemptCount < maxAttempts)

/-- Default retry strategy (backoff.ts `DEFAULT_RETRY_STRATEGY`). -/
def DEFAULT_RETRY_STRATEGY : RetryStrategy := RetryStrategy.exponential 1000 30000 3

/-- The `maxAttempts` field of an automatic strategy (the manual strategy
has none). -/
def RetryStrategy.maxAttemptsOf : RetryStrategy → Option Nat
  | RetryStrategy.fixed _ m => some m
  | RetryStrategy.exponential _ _ m => some m
  | RetryStrategy.manual => none

/-! ## Storage (src/storage/indexeddb.ts)

The object store is modelled as the list of logical entries it holds, in
insertion order; `getAll` and the eviction cursor read through the
`createdAt` index, i.e. ordered by (createdAt, primary key id).  The engine
and facade claims are stated at the logical-entry level; the body/metadata
serialization applied by `put` and undone on read is modelled separately
below (`serializeEntry` / `deserializeEntry`) — it does not touch the fields
the other operations read or patch. -/

/-- Store failures (types.ts error classes). -/
inductive Failure where
  | duplicateEntry (id : String)
  | entryNotFound (id : String)
  | persistence (msg : String)
  | jsError (msg : String)
  deriving DecidableEq

/-- A store is the list of entries it holds, in insertion order. -/
abbrev Store := List LedgerEntry

/-- indexeddb.ts `get(id)`: the entry with that primary key, if any. -/
def Store.get (s : Store) (id : String) : Option LedgerEntry :=
  s.find? (fun e => e.id = id)

/-- The IndexedDB `createdAt` index order: by createdAt, ties by primary
key (the entry id). -/
def idbLe (a b : LedgerEntry) : Bool :=
  decide (a.createdAt < b.createdAt) ||
    (decide (a.createdAt = b.createdAt) && decide (a.id ≤ b.id))

/-- Entries as read through the `createdAt` index (getAll, eviction cursor). -/
def Store.sortedByCreatedAt (s : Store) : Store :=
  List.mergeSort s idbLe

/-- indexeddb.ts `getAll()`: all entries ordered by createdAt ascending. -/
def Store.getAll (s : Store) : List LedgerEntry :=
  Store.sortedByCreatedAt s

/-- indexeddb.ts `count()`. -/
def Store.count (s : Store) : Nat := s.length

/-- indexeddb.ts `remove(id)`: idempotent delete by primary key. -/
def Store.remove (s : Store) (id : String) : Store :=
  s.filter (fun e => ¬ e.id = id)

/-- indexeddb.ts `clear()`. -/
def Store.clear (_ : Store) : Store := []

/-- The field-by-field merge performed by indexeddb.ts `update`: each of
status / attemptCount / lastAttemptAt is overwritten when the patch carries
a value; for `error` the source checks whether the key is present in the
patch, deleting the field when the key maps to `undefined`. -/
def applyPatch (e : LedgerEntry) (p : LedgerEntryPatch) : LedgerEntry :=
  let e1 := match p.status with
    | some st => { e with status := st }
    | none => e
  let e2 := match p.attemptCount with
    | some n => { e1 with attemptCount := n }
    | none => e1
  let e3 := match p.lastAttemptAt with
    | some t => { e2 with lastAttemptAt := some t }
    | none => e2
  match p.error with
  | none => e3
  | some none => { e3 with error := none }
  | some (some err) => { e3 with error := some err }

/-- indexeddb.ts `update(id, patch)`: fails with EntryNotFoundError when the
id is absent, otherwise stores the merged record. -/
def Store.update (s : Store) (id : String) (p : LedgerEntryPatch) :
    Except Failure Store :=
  match Store.get s id with
  | none => Except.error (Failure.entryNotFound id)
  | some _ =>
      Except.ok (s.map (fun e => if e.id = id then applyPatch e p else e))

/-- indexeddb.ts `evictIfNeeded`: when the entry count exceeds the
configured maximum, walk the `createdAt` index cursor from the start and
delete entries until the count is back at the maximum — i.e. delete the
`count - maxEntries` first entries in (createdAt, id) order. -/
def Store.evictIfNeeded (maxEntries : Nat) (s : Store) : Store :=
  if s.length ≤ maxEntries then s
  else
    let victims := ((Store.sortedByCreatedAt s).take (s.length - maxEntries)).map
      (fun e => e.id)
    s.filter (fun e => ¬ victims.contains e.id)

/-- indexeddb.ts `put(entry)`: duplicate-id check, then append, then evict
if the maximum is exceeded. -/
def Store.put (maxEntries : Nat) (s : Store) (e : LedgerEntry) :
    Except Failure Store :=
  match Store.get s e.id with
  | some _ => Except.error (Failure.duplicateEntry e.id)
  | none => Except.ok (Store.evictIfNeeded maxEntries (s ++ [e]))

/-! ## Entry serialization (indexeddb.ts put / deserializeEntry)

`put` stores the entry with `request.body` and `metadata` passed through
JSON.stringify (`JSON.stringify(undefined)` is `undefined`, and `metadata`
is stored only when truthy, i.e. present — its TypeScript type is an
object).  `deserializeEntry` decodes a field through JSON.parse when the
stored value is truthy (a non-empty string) and leaves it `undefined`
otherwise. -/

/-- The request part of a stored record: body replaced by its JSON text. -/
structure SerializedRequest where
  url : String
  method : String
  headers : List (String × String)
  body : Option (List Char)
  deriving DecidableEq

/-- A record as it sits in the object store. -/
structure SerializedEntry where
  id : String
  request : SerializedRequest
  status : EntryStatus
  attemptCount : Nat
  createdAt : Nat
  lastAttemptAt : Option Nat
  error : Option EntryError
  idempotencyKey : Option String
  metadata : Option (List Char)
  deriving DecidableEq

/-- The serialization indexeddb.ts `put` applies before `store.add`. -/
def serializeEntry (e : LedgerEntry) : SerializedEntry :=
  { id := e.id
  , request :=
    { url := e.request.url
    , method := e.request.method
    , headers := e.request.headers
    , body := e.request.body.map Json.render }
  , status := e.status
  , attemptCount := e.attemptCount
  , createdAt := e.createdAt
  , lastAttemptAt := e.lastAttemptAt
  , error := e.error
  , idempotencyKey := e.idempotencyKey
  , metadata := e.metadata.map (fun o => Json.render (Json.obj o)) }

/-- Decode one stored field: `stored ? JSON.parse(stored) : undefined`,
with a JSON.parse exception surfacing as an overall failure (`none`). -/
def decodeStoredField (stored : Option (List Char)) : Option (Option Json) :=
  match stored with
  | none => some none
  | some cs =>
    if cs.isEmpty then some none
    else
      match parseJson cs with
      | some v => some (some v)
      | none => none

/-- indexeddb.ts `deserializeEntry`: rebuild the logical entry from a stored
record.  `metadata` is typed as an object in the source, so a decoded
non-object value cannot be given back and is a failure here. -/
def deserializeEntry (s : SerializedEntry) : Option LedgerEntry := do
  let body ← decodeStoredField s.request.body
  let md ← decodeStoredField s.metadata
  let mdObj : Option JsonObj ←
    match md with
    | none => some none
    | some (Json.obj o) => some (some o)
    | some _ => none
  pure
    { id := s.id
    , request :=
      { url := s.request.url
      , method := s.request.method
      , headers := s.request.headers
      , body := body }
    , status := s.status
    , attemptCount := s.attemptCount
    , createdAt := s.createdAt
    , lastAttemptAt := s.lastAttemptAt
    , error := s.error
    , idempotencyKey := s.idempotencyKey
    , metadata := mdObj }

/-! ## Replay engine (src/replay/engine.ts) -/

/-- What one network attempt did: `fetch` resolved with a status code, or
it threw an error of the given classification. -/
inductive AttemptOutcome where
  | response (status : Nat)
  | thrown (k : JsErrorKind)
  deriving DecidableEq

/-- How the promise returned by `processEntry` settles. -/
inductive EntryResult where
  | fulfilled
  | rejected
  deriving DecidableEq

/-- engine.ts `canRetryEntry`: manual strategies never auto-retry; otherwise
the entry may be retried while the post-attempt count (the snapshot count
plus the attempt just made) is below `maxAttempts`. -/
def canRetryEntry (retry : RetryStrategy) (entry : LedgerEntry) : Bool :=
  match retry with
  | RetryStrategy.manual => false
  | RetryStrategy.fixed _ maxAttempts => decide (entry.attemptCount + 1 < maxAttempts)
  | RetryStrategy.exponential _ _ maxAttempts => decide (entry.attemptCount + 1 < maxAttempts)

/-- engine.ts `markAsFailed`: store status `failed` together with the error
detail. -/
def markAsFailed (s : Store) (entry : LedgerEntry) (message : String)
    (code : Option String) : Except Failure Store :=
  Store.update s entry.id
    { status := some EntryStatus.failed
    , error := some (some { message := message, code := code }) }

/-- engine.ts `processEntry`: mark the entry `processing` (bumping the
attempt count and stamping the attempt time), perform the attempt, then
classify the outcome.  4xx responses are terminal; 5xx responses and
network-classified exceptions are retryable, going back to `pending` while
`canRetryEntry` allows and to `failed` once it does not; other exceptions
reject the entry's promise with no further store change.  `now` is the
`Date.now()` reading, `outcome` the external executor's behaviour. -/
def processEntry (retry : RetryStrategy) (now : Nat) (outcome : AttemptOutcome)
    (s : Store) (entry : LedgerEntry) : Except Failure (Store × EntryResult) :=
  match Store.update s entry.id
    { status := some EntryStatus.processing
    , lastAttemptAt := some now
    , attemptCount := some (entry.attemptCount + 1) } with
  | Except.error f => Except.error f
  | Except.ok s1 =>
    match outcome with
    | AttemptOutcome.response status =>
      if isClientError status then
        match markAsFailed s1 entry
          ("HTTP " ++ toString status ++ ": Client error") (some (toString status)) with
        | Except.error f => Except.error f
        | Except.ok s2 => Except.ok (s2, EntryResult.rejected)
      else if isRetryableStatusCode status then
        if canRetryEntry retry entry then
          match Store.update s1 entry.id { status := some EntryStatus.pending } with
          | Except.error f => Except.error f
          | Except.ok s2 => Except.ok (s2, EntryResult.rejected)
        else
          match markAsFailed s1 entry
            ("HTTP " ++ toString status ++ ": Server error, max retries exceeded")
            (some (toString status)) with
          | Except.error f => Except.error f
          | Except.ok s2 => Except.ok (s2, EntryResult.rejected)
      else
        Except.ok (s1, EntryResult.fulfilled)
    | AttemptOutcome.thrown k =>
      if isNetworkError k then
        if canRetryEntry retry entry then
          match Store.update s1 entry.id { status := some EntryStatus.pending } with
          | Except.error f => Except.error f
          | Except.ok s2 => Except.ok (s2, EntryResult.rejected)
        else
          match markAsFailed s1 entry
            "Network error, max retries exceeded" (some "NETWORK_ERROR") with
          | Except.error f => Except.error f
          | Except.ok s2 => Except.ok (s2, EntryResult.rejected)
      else
        Except.ok (s1, EntryResult.rejected)

/-- The entry-at-a-time loop of `recoverStaleEntries`: update each listed
entry that was observed in `processing`, propagating a storage failure. -/
def recoverFold : List LedgerEntry → Store → Except Failure Store
  | [], acc => Except.ok acc
  | e :: t, acc =>
    if e.status = EntryStatus.processing then
      match Store.update acc e.id { status := some EntryStatus.pending } with
      | Except.error f => Except.error f
      | Except.ok acc2 => recoverFold t acc2
    else recoverFold t acc

/-- engine.ts `recoverStaleEntries`: walk all entries and force each one
found in `processing` back to `pending`. -/
def recoverStaleEntries (s : Store) : Except Failure Store :=
  recoverFold (Store.getAll s) s

/-- Options given to `process` (types.ts `ProcessOptions`; the callbacks are
recorded in the event trace). -/
structure ProcessOptions where
  concurrency : Nat := 1
  stopOnError : Bool := true

/-- Observable actions of a `process` run: the recovery pass, offline waits,
execution attempts, and the success/failure callbacks. -/
inductive PEvent where
  | recovery
  | offlineWait
  | attemptStart (id : String)
  | successCb (id : String)
  | failureCb (id : String)
  deriving DecidableEq

/-- The engine's in-process state (`isProcessing` guards the single drain
loop; `lastError` remembers a stop-on-error abort). -/
structure EngineState where
  isProcessing : Bool
  isPaused : Bool
  lastError : Bool
  store : Store
  deriving DecidableEq

/-- External collaborators of a drain run: the connectivity probe (per loop
iteration), the executor outcome per entry id, and the clock. -/
structure ProcessEnv where
  online : Nat → Bool
  outcome : String → AttemptOutcome
  now : Nat

/-- One `Promise.allSettled` batch: attempt every snapshot entry, threading
the store.  A storage failure inside `processEntry` rejects that entry's
promise. -/
def runBatch (env : ProcessEnv) (retry : RetryStrategy) (s : Store)
    (batch : List LedgerEntry) :
    Store × List (LedgerEntry × EntryResult) × List PEvent :=
  batch.foldl
    (fun acc entry =>
      match processEntry retry env.now (env.outcome entry.id) acc.1 entry with
      | Except.ok (s2, r) =>
          (s2, acc.2.1 ++ [(entry, r)], acc.2.2 ++ [PEvent.attemptStart entry.id])
      | Except.error _ =>
          (acc.1, acc.2.1 ++ [(entry, EntryResult.rejected)],
            acc.2.2 ++ [PEvent.attemptStart entry.id]))
    (s, [], [])

/-- The per-result loop after a batch settles: delete fulfilled entries and
fire their success callback; fire the failure callback for rejected ones,
breaking out of the loop on the first failure when `stopOnError` is set.
Returns the store, the callback events, and whether any result failed. -/
def handleResults (stopOnError : Bool) (s : Store) :
    List (LedgerEntry × EntryResult) → Store × List PEvent × Bool
  | [] => (s, [], false)
  | (entry, EntryResult.fulfilled) :: rest =>
      let s1 := Store.remove s entry.id
      let r := handleResults stopOnError s1 rest
      (r.1, PEvent.successCb entry.id :: r.2.1, r.2.2)
  | (entry, EntryResult.rejected) :: rest =>
      if stopOnError then (s, [PEvent.failureCb entry.id], true)
      else
        let r := handleResults stopOnError s rest
        (r.1, PEvent.failureCb entry.id :: r.2.1, true)

/-- The drain loop of engine.ts `process` (fueled): while not paused, check
connectivity (sleep and re-check when offline), take the oldest pending
entries up to the concurrency limit as a batch, attempt them, and apply the
results; stop when no pending entries remain, or after a failed batch under
`stopOnError` (recording the error).  Returns the store, the event trace,
and the final error flag. -/
def drainLoop (env : ProcessEnv) (retry : RetryStrategy) (opts : ProcessOptions) :
    Nat → Store → Bool → Store × List PEvent × Bool
  | 0, s, _ => (s, [], false)
  | fuel + 1, s, paused =>
    if paused then (s, [], false)
    else if ¬ env.online (fuel + 1) then
      let r := drainLoop env retry opts fuel s paused
      (r.1, PEvent.offlineWait :: r.2.1, r.2.2)
    else
      let pending := (Store.getAll s).filter (fun e => e.status = EntryStatus.pending)
      if pending.isEmpty then (s, [], false)
      else
        let batch := pending.take opts.concurrency
        let b := runBatch env retry s batch
        let h := handleResults opts.stopOnError b.1 b.2.1
        if h.2.2 && opts.stopOnError then (h.1, b.2.2 ++ h.2.1, true)
        else
          let r := drainLoop env retry opts fuel h.1 paused
          (r.1, b.2.2 ++ h.2.1 ++ r.2.1, r.2.2)

/-- engine.ts `process`: a no-op when a drain loop is already active
(`isProcessing`), otherwise set the flag, clear the last error, run the
crash-recovery pass and then the drain loop, and clear the flag on exit. -/
def ReplayEngine.process (env : ProcessEnv) (retry : RetryStrategy)
    (opts : ProcessOptions) (fuel : Nat) (st : EngineState) :
    EngineState × List PEvent :=
  if st.isProcessing then (st, [])
  else
    match recoverStaleEntries st.store with
    | Except.error _ =>
        ({ st with isProcessing := false, lastError := false }, [PEvent.recovery])
    | Except.ok s1 =>
        let r := drainLoop env retry opts fuel s1 st.isPaused
        ({ st with store := r.1, isProcessing := false, lastError := r.2.2 },
          PEvent.recovery :: r.2.1)

/-! ## Facade (src/index.ts RequestLedger) -/

/-- Options for `request` (types.ts `RequestOptions`). -/
structure RequestOptions where
  id : String
  url : String
  method : String
  headers : List (String × String) := []
  body : Option Json := none
  idempotencyKey : Option String := none
  metadata : Option JsonObj := none

/-- The entry `persistRequest` builds from the options at persist time. -/
def mkEntry (opts : RequestOptions) (now : Nat) : LedgerEntry :=
  { id := opts.id
  , request :=
    { url := opts.url
    , method := opts.method
    , headers := opts.headers
    , body := opts.body }
  , status := EntryStatus.pending
  , attemptCount := 0
  , createdAt := now
  , lastAttemptAt := none
  , error := none
  , idempotencyKey := opts.idempotencyKey
  , metadata := opts.metadata }

/-- Errors `request` can surface to its caller. -/
inductive RequestError where
  | execError (k : JsErrorKind)
  | persistenceFailed
  deriving DecidableEq

/-- index.ts `persistRequest`: build the entry and `put` it, wrapping any
storage failure in a PersistenceError. -/
def persistRequest (maxEntries : Nat) (opts : RequestOptions) (now : Nat)
    (s : Store) : Except RequestError Store :=
  match Store.put maxEntries s (mkEntry opts now) with
  | Except.ok s2 => Except.ok s2
  | Except.error _ => Except.error RequestError.persistenceFailed

/-- index.ts `RequestLedger.request`: when the connectivity check reports
reachable, attempt immediately (`execResult` is the executor's behaviour,
resolving with a response status or throwing a classified error); a
network-classified failure falls back to persisting, any other error is
rethrown.  When unreachable, persist without attempting.  Returns the
outcome together with the resulting store (`some status` for an immediate
response, `none` when queued). -/
def RequestLedger.request (maxEntries : Nat) (opts : RequestOptions)
    (online : Bool) (execResult : Except JsErrorKind Nat) (now : Nat)
    (s : Store) : Except RequestError (Option Nat) × Store :=
  if online then
    match execResult with
    | Except.ok resp => (Except.ok (some resp), s)
    | Except.error k =>
      if isNetworkError k then
        match persistRequest maxEntries opts now s with
        | Except.ok s2 => (Except.ok none, s2)
        | Except.error e => (Except.error e, s)
      else (Except.error (RequestError.execError k), s)
  else
    match persistRequest maxEntries opts now s with
    | Except.ok s2 => (Except.ok none, s2)
    | Except.error e => (Except.error e, s)

/-- index.ts `RequestLedger.retry`: look the entry up, require it to exist
and to be `failed` (throwing before any mutation otherwise), then reset the
status to `pending` with the `error` key explicitly cleared.  Returns the
raised error, if any, together with the resulting store. -/
def RequestLedger.retry (id : String) (s : Store) : Option Failure × Store :=
  match Store.get s id with
  | none => (some (Failure.jsError ("Entry not found: " ++ id)), s)
  | some entry =>
    if entry.status ≠ EntryStatus.failed then
      (some (Failure.jsError ("Entry is not in failed state: " ++ id)), s)
    else
      match Store.update s id
        { status := some EntryStatus.pending, error := some none } with
      | Except.ok s2 => (none, s2)
      | Except.error f => (some f, s)

/-! ## Sample data used by concrete instances -/

/-- A minimal concrete entry, parametrised where the claims need variety. -/
def sampleEntry (id : String) (status : EntryStatus) (createdAt : Nat)
    (attemptCount : Nat) : LedgerEntry :=
  { id := id
  , request := { url := "https://api.example.com/test", method := "POST"
               , headers := [], body := none }
  , status := status
  , attemptCount := attemptCount
  , createdAt := createdAt
  , lastAttemptAt := none
  , error := none
  , idempotencyKey := none
  , metadata := none }

/-! ## General lemmas about the store operations -/

/-- `applyPatch` in closed form: each carried field overwrites, `error` is
replaced by whatever the patch key holds when the key is present. -/
theorem applyPatch_eq (e : LedgerEntry) (p : LedgerEntryPatch) :
    applyPatch e p =
      { e with
        status := p.status.getD e.status
        attemptCount := p.attemptCount.getD e.attemptCount
        lastAttemptAt := (p.lastAttemptAt.map some).getD e.lastAttemptAt
        error := p.error.getD e.error } := by
  unfold applyPatch
  rcases p with ⟨ps, pa, pl, pe⟩
  cases ps <;> cases pa <;> cases pl <;> rcases pe with _ | (_ | _) <;> rfl

/-- Patching never touches the primary key. -/
theorem applyPatch_id (e : LedgerEntry) (p : LedgerEntryPatch) :
    (applyPatch e p).id = e.id := by
  rw [applyPatch_eq]

/-- `find?` commutes with a map that preserves the predicate. -/
theorem find?_map_pres {α : Type} (p : α → Bool) (g : α → α)
    (hg : ∀ x, p (g x) = p x) :
    ∀ l : List α, (l.map g).find? p = (l.find? p).map g := by
  intro l
  induction l with
  | nil => rfl
  | cons x t ih =>
    by_cases h : p x = true
    · rw [List.map_cons, List.find?_cons_of_pos _ (by rw [hg]; exact h),
        List.find?_cons_of_pos _ h]
      rfl
    · rw [List.map_cons, List.find?_cons_of_neg _ (by rw [hg]; simpa using h),
        List.find?_cons_of_neg _ (by simpa using h), ih]

/-- The pointwise function `Store.update` applies to the list. -/
def patchAt (id : String) (p : LedgerEntryPatch) (x : LedgerEntry) : LedgerEntry :=
  if x.id = id then applyPatch x p else x

/-- `patchAt` preserves ids. -/
theorem patchAt_id (id : String) (p : LedgerEntryPatch) (x : LedgerEntry) :
    (patchAt id p x).id = x.id := by
  unfold patchAt
  split
  · rw [applyPatch_id]
  · rfl

/-- A successful `update` maps `patchAt` over the store. -/
theorem update_found (s : Store) (id : String) (p : LedgerEntryPatch)
    (e : LedgerEntry) (h : Store.get s id = some e) :
    Store.update s id p = Except.ok (s.map (patchAt id p)) := by
  unfold Store.update
  rw [h]
  rfl

/-- Reading the updated id back gives the patched entry. -/
theorem get_map_patchAt (s : Store) (id : String) (p : LedgerEntryPatch)
    (e : LedgerEntry) (h : Store.get s id = some e) :
    Store.get (s.map (patchAt id p)) id = some (applyPatch e p) := by
  have he : e.id = id := by
    have := List.find?_some h
    simpa using this
  unfold Store.get at h ⊢
  rw [find?_map_pres _ (patchAt id p) (fun x => by rw [patchAt_id]) s, h]
  simp [patchAt, he]

/-- Reading through a patching map commutes with `get`. -/
theorem get_map_patchAt_any (s : Store) (id j : String) (p : LedgerEntryPatch) :
    Store.get (s.map (patchAt id p)) j = (Store.get s j).map (patchAt id p) := by
  unfold Store.get
  exact find?_map_pres _ (patchAt id p) (fun x => by rw [patchAt_id]) s

/-- An entry read back through `get` bears the id it was looked up by. -/
theorem get_id_eq (s : Store) (id : String) (e : LedgerEntry)
    (h : Store.get s id = some e) : e.id = id := by
  have := List.find?_some h
  simpa using this

/-! ## C3: exponential backoff -/

/-- C3: for every exponential strategy and every attemptCount n ≥ 1,
`calculateBackoffDelay` returns `min (baseMs * 2 ^ (n - 1)) maxMs` while
`n < maxAttempts` and signals stop (`none`) once `n ≥ maxAttempts`; with
baseMs 1000, maxMs 10000, maxAttempts 5 it yields 1000, 2000, 4000, 8000
for n = 1..4 and stop for every n ≥ 5. -/
theorem C3_exponential_backoff (baseMs maxMs maxAttempts n : Nat) (h1 : 1 ≤ n) :
    (n < maxAttempts →
      calculateBackoffDelay (RetryStrategy.exponential baseMs maxMs maxAttempts) n
        = some (min (baseMs * 2 ^ (n - 1)) maxMs)) ∧
    (maxAttempts ≤ n →
      calculateBackoffDelay (RetryStrategy.exponential baseMs maxMs maxAttempts) n
        = none) ∧
    (calculateBackoffDelay (RetryStrategy.exponential 1000 10000 5) 1 = some 1000 ∧
     calculateBackoffDelay (RetryStrategy.exponential 1000 10000 5) 2 = some 2000 ∧
     calculateBackoffDelay (RetryStrategy.exponential 1000 10000 5) 3 = some 4000 ∧
     calculateBackoffDelay (RetryStrategy.exponential 1000 10000 5) 4 = some 8000) ∧
    (∀ m, 5 ≤ m →
      calculateBackoffDelay (RetryStrategy.exponential 1000 10000 5) m = none) := by
  refine ⟨?_, ?_, by decide, ?_⟩
  · intro hlt
    simp only [calculateBackoffDelay]
    rw [if_neg (by omega)]
  · intro hge
    simp only [calculateBackoffDelay]
    rw [if_pos (by omega)]
  · intro m hm
    simp only [calculateBackoffDelay]
    rw [if_pos (by omega)]

/-- Witness for C3 at attemptCount 2. -/
theorem C3_witness :
    calculateBackoffDelay (RetryStrategy.exponential 1000 10000 5) 2 = some 2000 := by
  have h := (C3_exponential_backoff 1000 10000 5 2 (by decide)).1 (by decide)
  simpa using h

/-! ## C8: re-entrant process() is a no-op -/

/-- C8: a `process` call made while the engine's `isProcessing` flag is set
returns immediately with the engine state (store included) unchanged and an
empty action trace: no recovery pass, no store reads or writes, no
execution attempts, no callbacks — and no second loop is queued. -/
theorem C8_process_reentrant_noop (env : ProcessEnv) (retry : RetryStrategy)
    (opts : ProcessOptions) (fuel : Nat) (st : EngineState)
    (h : st.isProcessing = true) :
    ReplayEngine.process env retry opts fuel st = (st, []) := by
  unfold ReplayEngine.process
  rw [if_pos h]

/-- Witness for C8: a concrete engine mid-drain with a pending entry. -/
theorem C8_witness :
    ReplayEngine.process
      { online := fun _ => true, outcome := fun _ => AttemptOutcome.response 200
      , now := 0 }
      DEFAULT_RETRY_STRATEGY {} 5
      { isProcessing := true, isPaused := false, lastError := false
      , store := [sampleEntry "a" EntryStatus.pending 1 0] }
      = ({ isProcessing := true, isPaused := false, lastError := false
         , store := [sampleEntry "a" EntryStatus.pending 1 0] }, []) :=
  C8_process_reentrant_noop _ _ _ _ _ rfl

/-! ## Lemmas about processEntry -/

/-- The first store write of `processEntry`: the processing mark. -/
def processingPatch (entry : LedgerEntry) (now : Nat) : LedgerEntryPatch :=
  { status := some EntryStatus.processing
  , lastAttemptAt := some now
  , attemptCount := some (entry.attemptCount + 1) }

/-- The entry as it stands right after the processing mark. -/
theorem applyPatch_processing (entry : LedgerEntry) (now : Nat) :
    applyPatch entry (processingPatch entry now) =
      { entry with
        status := EntryStatus.processing
        attemptCount := entry.attemptCount + 1
        lastAttemptAt := some now } := by
  rw [applyPatch_eq]
  rfl

/-- 4xx outcome: `processEntry` marks the entry failed with the error
recorded, rejects, and does so irrespective of the retry strategy. -/
theorem processEntry_client_error (retry : RetryStrategy) (now st : Nat)
    (s : Store) (entry : LedgerEntry) (hget : Store.get s entry.id = some entry)
    (h4 : 400 ≤ st) (h5 : st < 500) :
    ∃ s2, processEntry retry now (AttemptOutcome.response st) s entry
        = Except.ok (s2, EntryResult.rejected) ∧
      Store.get s2 entry.id = some
        { entry with
          status := EntryStatus.failed
          attemptCount := entry.attemptCount + 1
          lastAttemptAt := some now
          error := some { message := "HTTP " ++ toString st ++ ": Client error"
                        , code := some (toString st) } } := by
  have hc : isClientError st = true := by
    unfold isClientError
    rw [Bool.and_eq_true, decide_eq_true_iff, decide_eq_true_iff]
    exact ⟨h4, h5⟩
  have h1 : Store.update s entry.id
      { status := some EntryStatus.processing
      , lastAttemptAt := some now
      , attemptCount := some (entry.attemptCount + 1) }
      = Except.ok (s.map (patchAt entry.id
        { status := some EntryStatus.processing
        , lastAttemptAt := some now
        , attemptCount := some (entry.attemptCount + 1) })) :=
    update_found s entry.id _ entry hget
  have hg1 := get_map_patchAt s entry.id
    { status := some EntryStatus.processing
    , lastAttemptAt := some now
    , attemptCount := some (entry.attemptCount + 1) } entry hget
  have h2 := update_found (s.map (patchAt entry.id
      { status := some EntryStatus.processing
      , lastAttemptAt := some now
      , attemptCount := some (entry.attemptCount + 1) })) entry.id
    { status := some EntryStatus.failed
    , error := some (some { message := "HTTP " ++ toString st ++ ": Client error"
                          , code := some (toString st) }) } _ hg1
  have hg2 := get_map_patchAt (s.map (patchAt entry.id
      { status := some EntryStatus.processing
      , lastAttemptAt := some now
      , attemptCount := some (entry.attemptCount + 1) })) entry.id
    { status := some EntryStatus.failed
    , error := some (some { message := "HTTP " ++ toString st ++ ": Client error"
                          , code := some (toString st) }) } _ hg1
  refine ⟨List.map (patchAt entry.id
      { status := some EntryStatus.failed
      , error := some (some { message := "HTTP " ++ toString st ++ ": Client error"
                            , code := some (toString st) }) })
    (List.map (patchAt entry.id
      { status := some EntryStatus.processing
      , lastAttemptAt := some now
      , attemptCount := some (entry.attemptCount + 1) }) s), ?_, ?_⟩
  · simp only [processEntry, h1, hc, if_true, markAsFailed, h2]
  · rw [hg2]
    rw [applyPatch_eq, applyPatch_eq]
    rfl

/-- 5xx outcome with retry budget remaining: `processEntry` re-arms the
entry as `pending` (the attempt count and time stamp of the failed attempt
kept) and rejects. -/
theorem processEntry_server_error_retry (retry : RetryStrategy) (now st : Nat)
    (s : Store) (entry : LedgerEntry) (hget : Store.get s entry.id = some entry)
    (h5 : 500 ≤ st) (h6 : st < 600) (hcr : canRetryEntry retry entry = true) :
    ∃ s2, processEntry retry now (AttemptOutcome.response st) s entry
        = Except.ok (s2, EntryResult.rejected) ∧
      Store.get s2 entry.id = some
        { entry with
          status := EntryStatus.pending
          attemptCount := entry.attemptCount + 1
          lastAttemptAt := some now } := by
  have hnc : isClientError st = false := by
    unfold isClientError
    rw [Bool.and_eq_false_iff]
    right
    rw [decide_eq_false_iff_not]
    omega
  have hr : isRetryableStatusCode st = true := by
    unfold isRetryableStatusCode
    rw [Bool.and_eq_true, decide_eq_true_iff, decide_eq_true_iff]
    exact ⟨h5, h6⟩
  have h1 : Store.update s entry.id
      { status := some EntryStatus.processing
      , lastAttemptAt := some now
      , attemptCount := some (entry.attemptCount + 1) }
      = Except.ok (s.map (patchAt entry.id
        { status := some EntryStatus.processing
        , lastAttemptAt := some now
        , attemptCount := some (entry.attemptCount + 1) })) :=
    update_found s entry.id _ entry hget
  have hg1 := get_map_patchAt s entry.id
    { status := some EntryStatus.processing
    , lastAttemptAt := some now
    , attemptCount := some (entry.attemptCount + 1) } entry hget
  have h2 := update_found (s.map (patchAt entry.id
      { status := some EntryStatus.processing
      , lastAttemptAt := some now
      , attemptCount := some (entry.attemptCount + 1) })) entry.id
    { status := some EntryStatus.pending } _ hg1
  have hg2 := get_map_patchAt (s.map (patchAt entry.id
      { status := some EntryStatus.processing
      , lastAttemptAt := some now
      , attemptCount := some (entry.attemptCount + 1) })) entry.id
    { status := some EntryStatus.pending } _ hg1
  refine ⟨List.map (patchAt entry.id { status := some EntryStatus.pending })
    (List.map (patchAt entry.id
      { status := some EntryStatus.processing
      , lastAttemptAt := some now
      , attemptCount := some (entry.attemptCount + 1) }) s), ?_, ?_⟩
  · simp only [processEntry, h1, hnc, hr, hcr, if_true, if_false,
      Bool.false_eq_true, h2]
  · rw [hg2]
    rw [applyPatch_eq, applyPatch_eq]
    rfl

/-- 5xx outcome with the budget exhausted (or a manual strategy):
`processEntry` marks the entry failed with the error recorded and rejects. -/
theorem processEntry_server_error_exhausted (retry : RetryStrategy) (now st : Nat)
    (s : Store) (entry : LedgerEntry) (hget : Store.get s entry.id = some entry)
    (h5 : 500 ≤ st) (h6 : st < 600) (hcr : canRetryEntry retry entry = false) :
    ∃ s2, processEntry retry now (AttemptOutcome.response st) s entry
        = Except.ok (s2, EntryResult.rejected) ∧
      Store.get s2 entry.id = some
        { entry with
          status := EntryStatus.failed
          attemptCount := entry.attemptCount + 1
          lastAttemptAt := some now
          error := some
            { message := "HTTP " ++ toString st ++ ": Server error, max retries exceeded"
            , code := some (toString st) } } := by
  have hnc : isClientError st = false := by
    unfold isClientError
    rw [Bool.and_eq_false_iff]
    right
    rw [decide_eq_false_iff_not]
    omega
  have hr : isRetryableStatusCode st = true := by
    unfold isRetryableStatusCode
    rw [Bool.and_eq_true, decide_eq_true_iff, decide_eq_true_iff]
    exact ⟨h5, h6⟩
  have h1 : Store.update s entry.id
      { status := some EntryStatus.processing
      , lastAttemptAt := some now
      , attemptCount := some (entry.attemptCount + 1) }
      = Except.ok (s.map (patchAt entry.id
        { status := some EntryStatus.processing
        , lastAttemptAt := some now
        , attemptCount := some (entry.attemptCount + 1) })) :=
    update_found s entry.id _ entry hget
  have hg1 := get_map_patchAt s entry.id
    { status := some EntryStatus.processing
    , lastAttemptAt := some now
    , attemptCount := some (entry.attemptCount + 1) } entry hget
  have h2 := update_found (s.map (patchAt entry.id
      { status := some EntryStatus.processing
      , lastAttemptAt := some now
      , attemptCount := some (entry.attemptCount + 1) })) entry.id
    { status := some EntryStatus.failed
    , error := some (some
        { message := "HTTP " ++ toString st ++ ": Server error, max retries exceeded"
        , code := some (toString st) }) } _ hg1
  have hg2 := get_map_patchAt (s.map (patchAt entry.id
      { status := some EntryStatus.processing
      , lastAttemptAt := some now
      , attemptCount := some (entry.attemptCount + 1) })) entry.id
    { status := some EntryStatus.failed
    , error := some (some
        { message := "HTTP " ++ toString st ++ ": Server error, max retries exceeded"
        , code := some (toString st) }) } _ hg1
  refine ⟨List.map (patchAt entry.id
      { status := some EntryStatus.failed
      , error := some (some
          { message := "HTTP " ++ toString st ++ ": Server error, max retries exceeded"
          , code := some (toString st) }) })
    (List.map (patchAt entry.id
      { status := some EntryStatus.processing
      , lastAttemptAt := some now
      , attemptCount := some (entry.attemptCount + 1) }) s), ?_, ?_⟩
  · simp only [processEntry, h1, hnc, hr, hcr, if_true, if_false,
      Bool.false_eq_true, markAsFailed, h2]
  · rw [hg2]
    rw [applyPatch_eq, applyPatch_eq]
    rfl

/-- `canRetryEntry` is true exactly on an automatic strategy with budget
left after the attempt just made. -/
theorem canRetryEntry_true_of (retry : RetryStrategy) (entry : LedgerEntry)
    (m : Nat) (hm : retry.maxAttemptsOf = some m)
    (hlt : entry.attemptCount + 1 < m) : canRetryEntry retry entry = true := by
  cases retry with
  | manual => simp [RetryStrategy.maxAttemptsOf] at hm
  | fixed d ma =>
    simp only [RetryStrategy.maxAttemptsOf, Option.some.injEq] at hm
    subst hm
    simpa [canRetryEntry] using hlt
  | exponential b mx ma =>
    simp only [RetryStrategy.maxAttemptsOf, Option.some.injEq] at hm
    subst hm
    simpa [canRetryEntry] using hlt

/-- `canRetryEntry` is false on a manual strategy and on an automatic
strategy whose budget is spent. -/
theorem canRetryEntry_false_of (retry : RetryStrategy) (entry : LedgerEntry)
    (h : retry = RetryStrategy.manual ∨
      ∃ m, retry.maxAttemptsOf = some m ∧ m ≤ entry.attemptCount + 1) :
    canRetryEntry retry entry = false := by
  rcases h with h | ⟨m, hm, hle⟩
  · subst h
    rfl
  · cases retry with
    | manual => rfl
    | fixed d ma =>
      simp only [RetryStrategy.maxAttemptsOf, Option.some.injEq] at hm
      subst hm
      simp [canRetryEntry]
      omega
    | exponential b mx ma =>
      simp only [RetryStrategy.maxAttemptsOf, Option.some.injEq] at hm
      subst hm
      simp [canRetryEntry]
      omega

/-! ## C1: failure classification in processEntry -/

/-- C1: for every attempt `processEntry` performs, a response in the client
error class (400-499) drives the entry to `failed` with the error recorded,
whatever the retry strategy and budget; a response in the server error
class (500-599) drives it back to `pending` when the strategy is automatic
and the post-attempt count is below `maxAttempts`, and to `failed` with the
error recorded when the strategy is manual or the budget is spent. -/
theorem C1_processEntry_classification (retry : RetryStrategy) (now st : Nat)
    (s : Store) (entry : LedgerEntry)
    (hget : Store.get s entry.id = some entry) :
    (400 ≤ st → st < 500 →
      ∃ s2 e2, processEntry retry now (AttemptOutcome.response st) s entry
          = Except.ok (s2, EntryResult.rejected) ∧
        Store.get s2 entry.id = some e2 ∧
        e2.status = EntryStatus.failed ∧
        e2.error = some { message := "HTTP " ++ toString st ++ ": Client error"
                        , code := some (toString st) }) ∧
    (500 ≤ st → st < 600 → ∀ m, retry.maxAttemptsOf = some m →
      entry.attemptCount + 1 < m →
      ∃ s2 e2, processEntry retry now (AttemptOutcome.response st) s entry
          = Except.ok (s2, EntryResult.rejected) ∧
        Store.get s2 entry.id = some e2 ∧
        e2.status = EntryStatus.pending) ∧
    (500 ≤ st → st < 600 →
      (retry = RetryStrategy.manual ∨
        ∃ m, retry.maxAttemptsOf = some m ∧ m ≤ entry.attemptCount + 1) →
      ∃ s2 e2, processEntry retry now (AttemptOutcome.response st) s entry
          = Except.ok (s2, EntryResult.rejected) ∧
        Store.get s2 entry.id = some e2 ∧
        e2.status = EntryStatus.failed ∧
        e2.error = some
          { message := "HTTP " ++ toString st ++ ": Server error, max retries exceeded"
          , code := some (toString st) }) := by
  refine ⟨?_, ?_, ?_⟩
  · intro h4 h5
    obtain ⟨s2, hrun, hg⟩ := processEntry_client_error retry now st s entry hget h4 h5
    exact ⟨s2, _, hrun, hg, rfl, rfl⟩
  · intro h5 h6 m hm hlt
    obtain ⟨s2, hrun, hg⟩ := processEntry_server_error_retry retry now st s entry hget
      h5 h6 (canRetryEntry_true_of retry entry m hm hlt)
    exact ⟨s2, _, hrun, hg, rfl⟩
  · intro h5 h6 hexh
    obtain ⟨s2, hrun, hg⟩ := processEntry_server_error_exhausted retry now st s entry hget
      h5 h6 (canRetryEntry_false_of retry entry hexh)
    exact ⟨s2, _, hrun, hg, rfl, rfl⟩

/-- Witness for C1: a 404 on an entry with plenty of budget left still goes
to `failed`. -/
theorem C1_witness :
    ∃ s2 e2, processEntry (RetryStrategy.exponential 1000 10000 5) 7
        (AttemptOutcome.response 404) [sampleEntry "a" EntryStatus.pending 1 0]
        (sampleEntry "a" EntryStatus.pending 1 0)
        = Except.ok (s2, EntryResult.rejected) ∧
      Store.get s2 "a" = some e2 ∧
      e2.status = EntryStatus.failed ∧
      e2.error = some { message := "HTTP " ++ toString 404 ++ ": Client error"
                      , code := some (toString 404) } :=
  (C1_processEntry_classification (RetryStrategy.exponential 1000 10000 5) 7 404
    [sampleEntry "a" EntryStatus.pending 1 0]
    (sampleEntry "a" EntryStatus.pending 1 0) rfl).1 (by decide) (by decide)

/-! ## C7: update distinguishes an omitted error key from a cleared one -/

/-- C7: for an existing entry, `update` removes the stored error field when
the patch carries the error key explicitly cleared (`some none`), leaves it
untouched when the key is omitted (`none`), and overwrites it when the key
carries a value. -/
theorem C7_update_error_patch_semantics (s : Store) (id : String)
    (p : LedgerEntryPatch) (e : LedgerEntry) (hget : Store.get s id = some e) :
    ∃ s2 e2, Store.update s id p = Except.ok s2 ∧ Store.get s2 id = some e2 ∧
      (p.error = some none → e2.error = none) ∧
      (p.error = none → e2.error = e.error) ∧
      (∀ v, p.error = some (some v) → e2.error = some v) := by
  refine ⟨s.map (patchAt id p), applyPatch e p, update_found s id p e hget,
    get_map_patchAt s id p e hget, ?_, ?_, ?_⟩
  · intro hp
    rw [applyPatch_eq]
    simp [hp]
  · intro hp
    rw [applyPatch_eq]
    simp [hp]
  · intro v hp
    rw [applyPatch_eq]
    simp [hp]

/-- Witness for C7: clearing the stored error of a failed entry. -/
theorem C7_witness :
    ∃ s2 e2, Store.update
        [ { sampleEntry "a" EntryStatus.failed 1 2 with
            error := some { message := "boom", code := none } } ] "a"
        { error := some none } = Except.ok s2 ∧
      Store.get s2 "a" = some e2 ∧
      ((some (none : Option EntryError) : Option (Option EntryError)) = some none →
        e2.error = none) ∧
      ((some (none : Option EntryError) : Option (Option EntryError)) = none →
        e2.error = ({ sampleEntry "a" EntryStatus.failed 1 2 with
            error := some { message := "boom", code := none } } : LedgerEntry).error) ∧
      (∀ v, (some (none : Option EntryError) : Option (Option EntryError)) = some (some v) →
        e2.error = some v) :=
  C7_update_error_patch_semantics _ "a" { error := some none } _ rfl

/-! ## C6: manual retry requires a failed entry -/

/-- C6: the facade's `retry(id)` succeeds exactly when an entry with that
id exists in status `failed`; it then resets the status to `pending` and
removes the error field.  In every other case (no entry, or status
`pending`/`processing`/`completed`) it raises an error and returns the
store completely unchanged. -/
theorem C6_retry_requires_failed (s : Store) (id : String) :
    ((∃ e, Store.get s id = some e ∧ e.status = EntryStatus.failed) →
      ∃ e s2, Store.get s id = some e ∧
        RequestLedger.retry id s = (none, s2) ∧
        Store.get s2 id = some { e with status := EntryStatus.pending, error := none }) ∧
    ((¬ ∃ e, Store.get s id = some e ∧ e.status = EntryStatus.failed) →
      ∃ f, RequestLedger.retry id s = (some f, s)) := by
  constructor
  · rintro ⟨e, hget, hfail⟩
    refine ⟨e, s.map (patchAt id
      { status := some EntryStatus.pending, error := some none }), hget, ?_, ?_⟩
    · simp only [RequestLedger.retry, hget]
      rw [if_neg (not_not_intro hfail)]
      rw [update_found s id _ e hget]
    · rw [get_map_patchAt s id _ e hget, applyPatch_eq]
      rfl
  · intro hno
    cases hget : Store.get s id with
    | none =>
      refine ⟨Failure.jsError ("Entry not found: " ++ id), ?_⟩
      simp only [RequestLedger.retry, hget]
    | some e =>
      have hne : e.status ≠ EntryStatus.failed := fun h => hno ⟨e, hget, h⟩
      refine ⟨Failure.jsError ("Entry is not in failed state: " ++ id), ?_⟩
      simp only [RequestLedger.retry, hget]
      rw [if_pos hne]

/-- Witness for C6: retrying a concrete failed entry re-arms it. -/
theorem C6_witness :
    ∃ e s2, Store.get
        [ { sampleEntry "a" EntryStatus.failed 5 2 with
            error := some { message := "boom", code := some "503" } } ] "a" = some e ∧
      RequestLedger.retry "a"
        [ { sampleEntry "a" EntryStatus.failed 5 2 with
            error := some { message := "boom", code := some "503" } } ] = (none, s2) ∧
      Store.get s2 "a" = some { e with status := EntryStatus.pending, error := none } :=
  (C6_retry_requires_failed _ "a").1 ⟨_, rfl, rfl⟩

/-! ## C10: a successful retry touches only status and error -/

/-- C10: re-arming a failed entry through the facade's `retry` changes only
the status (to `pending`) and the error (cleared): attemptCount,
lastAttemptAt, request, createdAt, idempotencyKey and metadata survive.  In
particular the retry budget is not reset: under an automatic strategy whose
`maxAttempts` is already spent, the re-armed entry's `canRetryEntry` is
still false, and its next server-error attempt marks it `failed` again. -/
theorem C10_retry_frame (s : Store) (id : String) (e : LedgerEntry)
    (hget : Store.get s id = some e) (hfail : e.status = EntryStatus.failed) :
    ∃ s2 e2, RequestLedger.retry id s = (none, s2) ∧
      Store.get s2 id = some e2 ∧
      e2.status = EntryStatus.pending ∧
      e2.error = none ∧
      e2.attemptCount = e.attemptCount ∧
      e2.lastAttemptAt = e.lastAttemptAt ∧
      e2.request = e.request ∧
      e2.createdAt = e.createdAt ∧
      e2.idempotencyKey = e.idempotencyKey ∧
      e2.metadata = e.metadata ∧
      (∀ (retry : RetryStrategy) (m : Nat), retry.maxAttemptsOf = some m →
        m ≤ e.attemptCount + 1 → canRetryEntry retry e2 = false) ∧
      (∀ (retry : RetryStrategy) (m now st : Nat), retry.maxAttemptsOf = some m →
        m ≤ e.attemptCount + 1 → 500 ≤ st → st < 600 →
        ∃ s3 e3, processEntry retry now (AttemptOutcome.response st) s2 e2
            = Except.ok (s3, EntryResult.rejected) ∧
          Store.get s3 id = some e3 ∧ e3.status = EntryStatus.failed) := by
  have hid : e.id = id := get_id_eq s id e hget
  have hrun : RequestLedger.retry id s = (none, s.map (patchAt id
      { status := some EntryStatus.pending, error := some none })) := by
    simp only [RequestLedger.retry, hget]
    rw [if_neg (not_not_intro hfail)]
    rw [update_found s id _ e hget]
  have hg2 : Store.get (s.map (patchAt id
      { status := some EntryStatus.pending, error := some none })) id
      = some (applyPatch e { status := some EntryStatus.pending, error := some none }) :=
    get_map_patchAt s id _ e hget
  have he2 : applyPatch e { status := some EntryStatus.pending, error := some none }
      = { e with status := EntryStatus.pending, error := none } := by
    rw [applyPatch_eq]
    rfl
  have hid2 : (applyPatch e
      { status := some EntryStatus.pending, error := some none }).id = id := by
    rw [applyPatch_id, hid]
  have hget2 : Store.get (s.map (patchAt id
      { status := some EntryStatus.pending, error := some none }))
      (applyPatch e { status := some EntryStatus.pending, error := some none }).id
      = some (applyPatch e { status := some EntryStatus.pending, error := some none }) := by
    rw [hid2]
    exact hg2
  have hcnt : (applyPatch e
      { status := some EntryStatus.pending, error := some none }).attemptCount
      = e.attemptCount := by
    rw [he2]
  refine ⟨_, _, hrun, hg2, by rw [he2], by rw [he2], hcnt, by rw [he2], by rw [he2],
    by rw [he2], by rw [he2], by rw [he2], ?_, ?_⟩
  · intro retry m hm hle
    refine canRetryEntry_false_of retry _ (Or.inr ⟨m, hm, ?_⟩)
    rw [hcnt]
    exact hle
  · intro retry m now st hm hle h5 h6
    have hcr : canRetryEntry retry
        (applyPatch e { status := some EntryStatus.pending, error := some none })
        = false := by
      refine canRetryEntry_false_of retry _ (Or.inr ⟨m, hm, ?_⟩)
      rw [hcnt]
      exact hle
    obtain ⟨s3, hrun3, hg3⟩ := processEntry_server_error_exhausted retry now st _ _
      hget2 h5 h6 hcr
    rw [hid2] at hg3
    exact ⟨s3, _, hrun3, hg3, rfl⟩

/-- Witness for C10: a failed entry with three attempts under a strategy
allowing three; the re-armed entry still cannot auto-retry. -/
theorem C10_witness :
    ∃ s2 e2, RequestLedger.retry "a"
        [ { sampleEntry "a" EntryStatus.failed 5 3 with
            error := some { message := "boom", code := some "503" } } ] = (none, s2) ∧
      Store.get s2 "a" = some e2 ∧
      e2.status = EntryStatus.pending ∧
      e2.error = none ∧
      e2.attemptCount = ({ sampleEntry "a" EntryStatus.failed 5 3 with
            error := some { message := "boom", code := some "503" } } : LedgerEntry).attemptCount ∧
      e2.lastAttemptAt = ({ sampleEntry "a" EntryStatus.failed 5 3 with
            error := some { message := "boom", code := some "503" } } : LedgerEntry).lastAttemptAt ∧
      e2.request = ({ sampleEntry "a" EntryStatus.failed 5 3 with
            error := some { message := "boom", code := some "503" } } : LedgerEntry).request ∧
      e2.createdAt = ({ sampleEntry "a" EntryStatus.failed 5 3 with
            error := some { message := "boom", code := some "503" } } : LedgerEntry).createdAt ∧
      e2.idempotencyKey = ({ sampleEntry "a" EntryStatus.failed 5 3 with
            error := some { message := "boom", code := some "503" } } : LedgerEntry).idempotencyKey ∧
      e2.metadata = ({ sampleEntry "a" EntryStatus.failed 5 3 with
            error := some { message := "boom", code := some "503" } } : LedgerEntry).metadata ∧
      (∀ (retry : RetryStrategy) (m : Nat), retry.maxAttemptsOf = some m →
        m ≤ ({ sampleEntry "a" EntryStatus.failed 5 3 with
            error := some { message := "boom", code := some "503" } } : LedgerEntry).attemptCount + 1 →
        canRetryEntry retry e2 = false) ∧
      (∀ (retry : RetryStrategy) (m now st : Nat), retry.maxAttemptsOf = some m →
        m ≤ ({ sampleEntry "a" EntryStatus.failed 5 3 with
            error := some { message := "boom", code := some "503" } } : LedgerEntry).attemptCount + 1 →
        500 ≤ st → st < 600 →
        ∃ s3 e3, processEntry retry now (AttemptOutcome.response st) s2 e2
            = Except.ok (s3, EntryResult.rejected) ∧
          Store.get s3 "a" = some e3 ∧ e3.status = EntryStatus.failed) :=
  C10_retry_frame _ "a" _ rfl rfl

/-! ## C5: request() error routing -/

/-- A fresh-id put under capacity simply appends the new entry. -/
theorem put_fresh_under_capacity (maxEntries : Nat) (s : Store) (e : LedgerEntry)
    (hfresh : Store.get s e.id = none) (hcap : s.length < maxEntries) :
    Store.put maxEntries s e = Except.ok (s ++ [e]) := by
  unfold Store.put
  rw [hfresh]
  unfold Store.evictIfNeeded
  rw [if_pos (by rw [List.length_append, List.length_cons, List.length_nil]; omega)]

/-- Reading a freshly appended entry back. -/
theorem get_append_fresh (s : Store) (e : LedgerEntry)
    (hfresh : Store.get s e.id = none) :
    Store.get (s ++ [e]) e.id = some e := by
  unfold Store.get at hfresh ⊢
  rw [List.find?_append, hfresh]
  simp

/-- C5: through the facade's `request`, with the connectivity check
reporting reachable, a network-classified failure of the immediate attempt
persists the entry as `pending` and surfaces no error, while a non-network
failure propagates to the caller with nothing persisted; with the check
reporting unreachable, the entry is persisted without consulting the
executor at all.  (`hfresh`/`hcap` make the persist itself succeed: the id
is new and the store is under its capacity bound.) -/
theorem C5_request_error_routing (maxEntries : Nat) (opts : RequestOptions)
    (now : Nat) (s : Store)
    (hfresh : Store.get s opts.id = none) (hcap : s.length < maxEntries) :
    (RequestLedger.request maxEntries opts true (Except.error JsErrorKind.network) now s
        = (Except.ok none, s ++ [mkEntry opts now]) ∧
      Store.get (s ++ [mkEntry opts now]) opts.id = some (mkEntry opts now) ∧
      (mkEntry opts now).status = EntryStatus.pending) ∧
    (∀ k, isNetworkError k = false →
      RequestLedger.request maxEntries opts true (Except.error k) now s
        = (Except.error (RequestError.execError k), s)) ∧
    ((∀ execResult execResult2,
        RequestLedger.request maxEntries opts false execResult now s
          = RequestLedger.request maxEntries opts false execResult2 now s) ∧
      ∀ execResult,
        RequestLedger.request maxEntries opts false execResult now s
          = (Except.ok none, s ++ [mkEntry opts now])) := by
  have hput : Store.put maxEntries s (mkEntry opts now) = Except.ok (s ++ [mkEntry opts now]) :=
    put_fresh_under_capacity maxEntries s (mkEntry opts now) hfresh hcap
  have hpersist : persistRequest maxEntries opts now s
      = Except.ok (s ++ [mkEntry opts now]) := by
    simp only [persistRequest, hput]
  refine ⟨⟨?_, ?_, rfl⟩, ?_, ?_, ?_⟩
  · simp only [RequestLedger.request, isNetworkError, if_true, hpersist]
  · exact get_append_fresh s (mkEntry opts now) hfresh
  · intro k hk
    simp only [RequestLedger.request, hk, Bool.false_eq_true, if_false, if_true]
  · intro e1 e2
    simp only [RequestLedger.request, Bool.false_eq_true, if_false]
  · intro e1
    simp only [RequestLedger.request, Bool.false_eq_true, if_false, hpersist]

/-- Witness for C5 on an empty store with a concrete request. -/
theorem C5_witness :
    (RequestLedger.request 1000 { id := "r1", url := "u", method := "POST" } true
        (Except.error JsErrorKind.network) 42 []
        = (Except.ok none, [] ++ [mkEntry { id := "r1", url := "u", method := "POST" } 42]) ∧
      Store.get ([] ++ [mkEntry { id := "r1", url := "u", method := "POST" } 42]) "r1"
        = some (mkEntry { id := "r1", url := "u", method := "POST" } 42) ∧
      (mkEntry { id := "r1", url := "u", method := "POST" } 42).status
        = EntryStatus.pending) ∧
    (∀ k, isNetworkError k = false →
      RequestLedger.request 1000 { id := "r1", url := "u", method := "POST" } true
        (Except.error k) 42 []
        = (Except.error (RequestError.execError k), [])) ∧
    ((∀ execResult execResult2,
        RequestLedger.request 1000 { id := "r1", url := "u", method := "POST" } false
          execResult 42 []
          = RequestLedger.request 1000 { id := "r1", url := "u", method := "POST" } false
            execResult2 42 []) ∧
      ∀ execResult,
        RequestLedger.request 1000 { id := "r1", url := "u", method := "POST" } false
          execResult 42 []
          = (Except.ok none, [] ++ [mkEntry { id := "r1", url := "u", method := "POST" } 42])) :=
  C5_request_error_routing 1000 { id := "r1", url := "u", method := "POST" } 42 []
    rfl (by decide)

/-! ## C2: startup recovery -/

/-- The recovery loop over any listed prefix: updating every listed
`processing` entry is the same as pointwise re-arming every store entry
whose id is listed among the processing ones. -/
theorem recoverFold_eq (l : List LedgerEntry) :
    ∀ s : Store, (∀ e ∈ l, (Store.get s e.id).isSome = true) →
    recoverFold l s = Except.ok (s.map (fun x =>
      if x.id ∈ (l.filter (fun e => e.status = EntryStatus.processing)).map
          (fun e => e.id)
      then { x with status := EntryStatus.pending } else x)) := by
  induction l with
  | nil =>
    intro s _
    simp [recoverFold]
  | cons e t ih =>
    intro s hex
    by_cases he : e.status = EntryStatus.processing
    · obtain ⟨a, ha⟩ := Option.isSome_iff_exists.mp (hex e (List.mem_cons_self e t))
      have hupd := update_found s e.id { status := some EntryStatus.pending } a ha
      have hrec : recoverFold (e :: t) s
          = recoverFold t (s.map (patchAt e.id { status := some EntryStatus.pending })) := by
        simp only [recoverFold, he, if_true, hupd]
      have hex2 : ∀ x ∈ t, (Store.get (s.map
          (patchAt e.id { status := some EntryStatus.pending })) x.id).isSome = true := by
        intro x hx
        rw [get_map_patchAt_any]
        rcases Option.isSome_iff_exists.mp (hex x (List.mem_cons_of_mem e hx)) with ⟨b, hb⟩
        rw [hb]
        rfl
      have hfilter : List.filter (fun e => decide (e.status = EntryStatus.processing)) (e :: t)
          = e :: List.filter (fun e => decide (e.status = EntryStatus.processing)) t :=
        List.filter_cons_of_pos (by simp [he])
      rw [hrec, ih _ hex2, List.map_map]
      simp only [hfilter, List.map_cons]
      congr 1
      refine List.map_congr_left ?_
      intro x _
      by_cases hx : x.id = e.id
      · have hg : patchAt e.id { status := some EntryStatus.pending } x
            = { x with status := EntryStatus.pending } := by
          unfold patchAt
          rw [if_pos hx, applyPatch_eq]
          rfl
        simp only [Function.comp_apply, hg, List.mem_cons, hx, true_or, if_true]
        split <;> rfl
      · have hg : patchAt e.id { status := some EntryStatus.pending } x = x := by
          unfold patchAt
          rw [if_neg hx]
        simp only [Function.comp_apply, hg, List.mem_cons, hx, false_or]
    · have hrec : recoverFold (e :: t) s = recoverFold t s := by
        simp only [recoverFold, he, if_false]
      have hfilter : List.filter (fun e => decide (e.status = EntryStatus.processing)) (e :: t)
          = List.filter (fun e => decide (e.status = EntryStatus.processing)) t :=
        List.filter_cons_of_neg (by simp [he])
      rw [hrec, ih s (fun x hx => hex x (List.mem_cons_of_mem e hx))]
      simp only [hfilter]

/-- C2: the startup recovery pass (the first step of `process`, before the
drain loop) re-arms exactly the `processing` entries: every entry observed
in `processing` is stored back as `pending` and every other entry is left
unchanged, so afterwards no entry is in `processing`.  With zero loop fuel,
`process` on an idle engine performs exactly this pass and nothing else. -/
theorem C2_startup_recovery (s : Store)
    (hnodup : (s.map (fun e => e.id)).Nodup) :
    ∃ s2, recoverStaleEntries s = Except.ok s2 ∧
      s2 = s.map (fun x => if x.status = EntryStatus.processing
            then { x with status := EntryStatus.pending } else x) ∧
      (∀ e2 ∈ s2, e2.status ≠ EntryStatus.processing) ∧
      (∀ env retry opts paused lastErr,
        ReplayEngine.process env retry opts 0
          { isProcessing := false, isPaused := paused, lastError := lastErr, store := s }
          = ({ isProcessing := false, isPaused := paused, lastError := false, store := s2 },
            [PEvent.recovery])) := by
  have hperm : (Store.getAll s).Perm s := List.mergeSort_perm s idbLe
  have hex : ∀ e ∈ Store.getAll s, (Store.get s e.id).isSome = true := by
    intro e hme
    have hes : e ∈ s := hperm.mem_iff.mp hme
    rw [Store.get, List.find?_isSome]
    exact ⟨e, hes, by simp⟩
  have hrec := recoverFold_eq (Store.getAll s) s hex
  have hpt : ∀ x ∈ s,
      (if x.id ∈ ((Store.getAll s).filter
          (fun e => e.status = EntryStatus.processing)).map (fun e => e.id)
       then { x with status := EntryStatus.pending } else x)
      = (if x.status = EntryStatus.processing
         then { x with status := EntryStatus.pending } else x) := by
    intro x hxs
    by_cases hxp : x.status = EntryStatus.processing
    · rw [if_pos hxp, if_pos]
      rw [List.mem_map]
      refine ⟨x, ?_, rfl⟩
      rw [List.mem_filter]
      exact ⟨hperm.mem_iff.mpr hxs, by simp [hxp]⟩
    · rw [if_neg hxp, if_neg]
      intro hmem
      rw [List.mem_map] at hmem
      obtain ⟨y, hyf, hyid⟩ := hmem
      rw [List.mem_filter] at hyf
      obtain ⟨hyAll, hyp⟩ := hyf
      have hys : y ∈ s := hperm.mem_iff.mp hyAll
      have hxy : y = x := List.inj_on_of_nodup_map hnodup hys hxs hyid
      refine hxp ?_
      rw [← hxy]
      simpa using hyp
  have hmain : recoverStaleEntries s = Except.ok
      (s.map (fun x => if x.status = EntryStatus.processing
        then { x with status := EntryStatus.pending } else x)) := by
    show recoverFold (Store.getAll s) s = _
    rw [hrec]
    congr 1
    exact List.map_congr_left hpt
  refine ⟨_, hmain, rfl, ?_, ?_⟩
  · intro e2 hmem
    rw [List.mem_map] at hmem
    obtain ⟨x, hxs, hx2⟩ := hmem
    by_cases hxp : x.status = EntryStatus.processing
    · rw [if_pos hxp] at hx2
      rw [← hx2]
      intro hcontra
      exact absurd hcontra (by simp)
    · rw [if_neg hxp] at hx2
      rw [← hx2]
      exact hxp
  · intro env retry opts paused lastErr
    simp only [ReplayEngine.process, hmain]
    rfl

/-- Witness for C2: a store holding one `processing`, one `failed` and one
`pending` entry. -/
theorem C2_witness :
    ∃ s2, recoverStaleEntries
        [ sampleEntry "p" EntryStatus.processing 1 1
        , sampleEntry "q" EntryStatus.failed 2 1
        , sampleEntry "r" EntryStatus.pending 3 0 ] = Except.ok s2 ∧
      s2 = List.map (fun x => if x.status = EntryStatus.processing
            then { x with status := EntryStatus.pending } else x)
        [ sampleEntry "p" EntryStatus.processing 1 1
        , sampleEntry "q" EntryStatus.failed 2 1
        , sampleEntry "r" EntryStatus.pending 3 0 ] ∧
      (∀ e2 ∈ s2, e2.status ≠ EntryStatus.processing) ∧
      (∀ env retry opts paused lastErr,
        ReplayEngine.process env retry opts 0
          { isProcessing := false, isPaused := paused, lastError := lastErr
          , store := [ sampleEntry "p" EntryStatus.processing 1 1
                     , sampleEntry "q" EntryStatus.failed 2 1
                     , sampleEntry "r" EntryStatus.pending 3 0 ] }
          = ({ isProcessing := false, isPaused := paused, lastError := false, store := s2 },
            [PEvent.recovery])) :=
  C2_startup_recovery _ (by decide)

/-! ## C4: capacity eviction -/

/-- The index order in propositional form. -/
theorem idbLe_iff (a b : LedgerEntry) :
    idbLe a b = true ↔
      (a.createdAt < b.createdAt ∨ (a.createdAt = b.createdAt ∧ a.id ≤ b.id)) := by
  unfold idbLe
  rw [Bool.or_eq_true, Bool.and_eq_true, decide_eq_true_iff, decide_eq_true_iff,
    decide_eq_true_iff]

/-- The index order is total. -/
theorem idbLe_total (a b : LedgerEntry) : (idbLe a b || idbLe b a) = true := by
  rw [Bool.or_eq_true, idbLe_iff, idbLe_iff]
  rcases Nat.lt_trichotomy a.createdAt b.createdAt with h | h | h
  · exact Or.inl (Or.inl h)
  · rcases le_total a.id b.id with h2 | h2
    · exact Or.inl (Or.inr ⟨h, h2⟩)
    · exact Or.inr (Or.inr ⟨h.symm, h2⟩)
  · exact Or.inr (Or.inl h)

/-- The index order is transitive. -/
theorem idbLe_trans (a b c : LedgerEntry) (h1 : idbLe a b = true)
    (h2 : idbLe b c = true) : idbLe a c = true := by
  rw [idbLe_iff] at h1 h2 ⊢
  rcases h1 with h1 | ⟨h1e, h1i⟩
  · rcases h2 with h2 | ⟨h2e, _⟩
    · exact Or.inl (h1.trans h2)
    · exact Or.inl (h2e ▸ h1)
  · rcases h2 with h2 | ⟨h2e, h2i⟩
    · exact Or.inl (h1e ▸ h2)
    · exact Or.inr ⟨h1e.trans h2e, le_trans h1i h2i⟩

/-- The index order implies the createdAt order. -/
theorem idbLe_createdAt (a b : LedgerEntry) (h : idbLe a b = true) :
    a.createdAt ≤ b.createdAt := by
  rw [idbLe_iff] at h
  rcases h with h | ⟨h, _⟩
  · exact Nat.le_of_lt h
  · exact Nat.le_of_eq h

/-- C4 (amended): a `put` that pushes the count past the bound stores the
new entry, then deletes the `count - maxEntries` first entries in
(createdAt, id) index order — which may include the entry just inserted
when it is oldest.  Afterwards the count equals `maxEntries`, the surviving
entries are exactly those after the eviction cut in index order, and every
evicted entry's createdAt is at most every survivor's. -/
theorem C4_eviction_amended (maxEntries : Nat) (s : Store) (e : LedgerEntry)
    (hnodup : ((s ++ [e]).map (fun x => x.id)).Nodup)
    (hover : maxEntries ≤ s.length) :
    ∃ s2, Store.put maxEntries s e = Except.ok s2 ∧
      s2.length = maxEntries ∧
      s2.Perm ((Store.sortedByCreatedAt (s ++ [e])).drop (s.length + 1 - maxEntries)) ∧
      (∀ x ∈ s ++ [e], x ∉ s2 → ∀ y ∈ s2, x.createdAt ≤ y.createdAt) := by
  have hfresh : Store.get s e.id = none := by
    cases hg : Store.get s e.id with
    | none => rfl
    | some x =>
      exfalso
      have hxs : x ∈ s := List.mem_of_find?_eq_some hg
      have hid : x.id = e.id := get_id_eq s e.id x hg
      rw [List.map_append, List.nodup_append] at hnodup
      exact hnodup.2.2 (List.mem_map_of_mem _ hxs) (by simp [hid])
  have hlen : (s ++ [e]).length = s.length + 1 := by
    rw [List.length_append, List.length_cons, List.length_nil]
  have hsortPerm : (Store.sortedByCreatedAt (s ++ [e])).Perm (s ++ [e]) :=
    List.mergeSort_perm (s ++ [e]) idbLe
  have hsorted : List.Pairwise (fun a b => idbLe a b = true)
      (Store.sortedByCreatedAt (s ++ [e])) :=
    List.sorted_mergeSort idbLe_trans idbLe_total (s ++ [e])
  have hnodupSort : ((Store.sortedByCreatedAt (s ++ [e])).map (fun x => x.id)).Nodup :=
    (List.Perm.nodup_iff (List.Perm.map _ hsortPerm)).mpr hnodup
  set k := s.length + 1 - maxEntries with hk
  set sorted := Store.sortedByCreatedAt (s ++ [e]) with hsortedDef
  set A := sorted.take k with hA
  set B := sorted.drop k with hB
  have hAB : A ++ B = sorted := List.take_append_drop k sorted
  have hsortLen : sorted.length = s.length + 1 := by
    rw [List.Perm.length_eq hsortPerm, hlen]
  -- every taken entry fails the keep predicate, every dropped one passes it
  have hvicA : ∀ a ∈ A, (A.map (fun x => x.id)).contains a.id = true := by
    intro a ha
    rw [List.elem_iff]
    exact List.mem_map_of_mem _ ha
  have hdisj : ∀ b ∈ B, b.id ∉ A.map (fun x => x.id) := by
    intro b hb hmem
    rw [List.mem_map] at hmem
    obtain ⟨a, haA, haid⟩ := hmem
    have haS : a ∈ sorted := by
      rw [← hAB]
      exact List.mem_append_left _ haA
    have hbS : b ∈ sorted := by
      rw [← hAB]
      exact List.mem_append_right _ hb
    have hab : a = b := List.inj_on_of_nodup_map hnodupSort haS hbS haid
    have hnodupEl : sorted.Nodup := List.Nodup.of_map _ hnodupSort
    rw [← hAB] at hnodupEl
    rw [List.nodup_append] at hnodupEl
    exact hnodupEl.2.2 haA (hab ▸ hb)
  have hfilterPerm : ((s ++ [e]).filter
      (fun x => ¬ (A.map (fun y => y.id)).contains x.id)).Perm
      (A.filter (fun x => ¬ (A.map (fun y => y.id)).contains x.id)
        ++ B.filter (fun x => ¬ (A.map (fun y => y.id)).contains x.id)) := by
    rw [← List.filter_append, hAB]
    exact (List.Perm.filter _ hsortPerm).symm
  have hfA : A.filter (fun x => ¬ (A.map (fun y => y.id)).contains x.id) = [] := by
    rw [List.filter_eq_nil_iff]
    intro a ha
    simp only [decide_eq_true_eq]
    exact not_not_intro (hvicA a ha)
  have hfB : B.filter (fun x => ¬ (A.map (fun y => y.id)).contains x.id) = B := by
    rw [List.filter_eq_self]
    intro b hb
    simp only [decide_eq_true_eq]
    intro hcon
    rw [List.elem_iff] at hcon
    exact hdisj b hb hcon
  have hput : Store.put maxEntries s e = Except.ok
      ((s ++ [e]).filter (fun x => ¬ (A.map (fun y => y.id)).contains x.id)) := by
    unfold Store.put
    rw [hfresh]
    unfold Store.evictIfNeeded
    rw [if_neg (by omega)]
    rw [hlen]
  have hperm2 : ((s ++ [e]).filter
      (fun x => ¬ (A.map (fun y => y.id)).contains x.id)).Perm B := by
    rw [hfA, hfB] at hfilterPerm
    simpa using hfilterPerm
  refine ⟨_, hput, ?_, hperm2, ?_⟩
  · rw [List.Perm.length_eq hperm2, hB, List.length_drop, hsortLen]
    omega
  · intro x hx hxnot y hy
    have hyB : y ∈ B := (List.Perm.mem_iff hperm2).mp hy
    have hxS : x ∈ sorted := (List.Perm.mem_iff hsortPerm).mpr hx
    have hxA : x ∈ A := by
      rw [← hAB] at hxS
      rcases List.mem_append.mp hxS with h | h
      · exact h
      · exfalso
        exact hxnot ((List.Perm.mem_iff hperm2).mpr h)
    have hpw := (List.pairwise_append.mp (hAB ▸ hsorted)).2.2
    exact idbLe_createdAt x y (hpw x hxA y hyB)

/-- Counterexample to C4 as stated: with capacity 3 and a store of entries
created at 2000, 3000 and 4000, putting a new entry created at 1000 evicts
the entry being inserted itself (it is the oldest), leaving the store as it
was — the claim that the inserted entry is never among the evicted fails. -/
theorem C4_counterexample :
    Store.put 3
      [ sampleEntry "b" EntryStatus.pending 2000 0
      , sampleEntry "c" EntryStatus.pending 3000 0
      , sampleEntry "d" EntryStatus.pending 4000 0 ]
      (sampleEntry "a" EntryStatus.pending 1000 0)
      = Except.ok
        [ sampleEntry "b" EntryStatus.pending 2000 0
        , sampleEntry "c" EntryStatus.pending 3000 0
        , sampleEntry "d" EntryStatus.pending 4000 0 ] ∧
    Store.get
      [ sampleEntry "b" EntryStatus.pending 2000 0
      , sampleEntry "c" EntryStatus.pending 3000 0
      , sampleEntry "d" EntryStatus.pending 4000 0 ] "a" = none := by
  constructor
  · simp +decide [Store.put, Store.get, Store.evictIfNeeded, Store.sortedByCreatedAt,
      List.mergeSort, idbLe, sampleEntry]
  · rfl

/-- Witness for the amended C4: the repository's own eviction scenario —
capacity 3, three entries, a newest 4th inserted — evicts exactly the
oldest. -/
theorem C4_witness :
    ∃ s2, Store.put 3
        [ sampleEntry "t1" EntryStatus.pending 1000 0
        , sampleEntry "t2" EntryStatus.pending 2000 0
        , sampleEntry "t3" EntryStatus.pending 3000 0 ]
        (sampleEntry "t4" EntryStatus.pending 4000 0) = Except.ok s2 ∧
      s2.length = 3 ∧
      s2.Perm ((Store.sortedByCreatedAt
        ([ sampleEntry "t1" EntryStatus.pending 1000 0
         , sampleEntry "t2" EntryStatus.pending 2000 0
         , sampleEntry "t3" EntryStatus.pending 3000 0 ]
          ++ [sampleEntry "t4" EntryStatus.pending 4000 0])).drop (3 + 1 - 3)) ∧
      (∀ x ∈ [ sampleEntry "t1" EntryStatus.pending 1000 0
             , sampleEntry "t2" EntryStatus.pending 2000 0
             , sampleEntry "t3" EntryStatus.pending 3000 0 ]
          ++ [sampleEntry "t4" EntryStatus.pending 4000 0],
        x ∉ s2 → ∀ y ∈ s2, x.createdAt ≤ y.createdAt) := by
  have h := C4_eviction_amended 3
    [ sampleEntry "t1" EntryStatus.pending 1000 0
    , sampleEntry "t2" EntryStatus.pending 2000 0
    , sampleEntry "t3" EntryStatus.pending 3000 0 ]
    (sampleEntry "t4" EntryStatus.pending 4000 0) (by decide) (by decide)
  simpa using h

/-! ## C9: lossless serialization round trip

First the JSON renderer / parser round trip, then the entry-level
`serializeEntry` / `deserializeEntry` round trip built on it. -/

/-- Digit characters read back as their value. -/
theorem digitToChar_toNat (d : Nat) (h : d < 10) :
    (digitToChar d).toNat = 48 + d := by
  interval_cases d <;> decide

/-- Digit characters satisfy the digit test. -/
theorem isDigitCh_digitToChar (d : Nat) (h : d < 10) :
    isDigitCh (digitToChar d) = true := by
  interval_cases d <;> decide

/-- Folding the digit-value step over a rendered digit string recovers the
number (big-endian fold against Mathlib's little-endian `Nat.ofDigits`). -/
theorem foldl_digits (l : List Nat) (hl : ∀ d ∈ l, d < 10) (a : Nat) :
    List.foldl (fun acc c => 10 * acc + (c.toNat - 48)) a
      ((l.map digitToChar).reverse)
      = a * 10 ^ l.length + Nat.ofDigits 10 l := by
  induction l generalizing a with
  | nil => simp
  | cons d t ih =>
    have hd : d < 10 := hl d (List.mem_cons_self d t)
    have ht : ∀ x ∈ t, x < 10 := fun x hx => hl x (List.mem_cons_of_mem d hx)
    rw [List.map_cons, List.reverse_cons, List.foldl_append, ih ht a]
    simp only [List.foldl_cons, List.foldl_nil, List.length_cons]
    rw [digitToChar_toNat d hd, Nat.ofDigits_cons]
    have : 48 + d - 48 = d := by omega
    rw [this, pow_succ]
    ring

/-- Every character of `renderNat` is a digit. -/
theorem renderNat_digits (n : Nat) : ∀ c ∈ renderNat n, isDigitCh c = true := by
  intro c hc
  unfold renderNat at hc
  by_cases h : n = 0
  · rw [if_pos h] at hc
    simp at hc
    rw [hc]
    decide
  · rw [if_neg h] at hc
    rw [List.mem_reverse, List.mem_map] at hc
    obtain ⟨d, hd, hdc⟩ := hc
    rw [← hdc]
    exact isDigitCh_digitToChar d (Nat.digits_lt_base (by omega) hd)

/-- `renderNat` never renders the empty string. -/
theorem renderNat_ne_nil (n : Nat) : renderNat n ≠ [] := by
  unfold renderNat
  by_cases h : n = 0
  · rw [if_pos h]
    simp
  · rw [if_neg h]
    simp only [ne_eq, List.reverse_eq_nil_iff, List.map_eq_nil_iff]
    exact Nat.digits_ne_nil_iff_ne_zero.mpr h

/-- Reading the rendered digits of `n` back gives `n`. -/
theorem digitsVal_renderNat (n : Nat) : digitsVal (renderNat n) = n := by
  unfold digitsVal renderNat
  by_cases h : n = 0
  · rw [if_pos h, h]
    decide
  · rw [if_neg h]
    rw [foldl_digits _ (fun d hd => Nat.digits_lt_base (by omega) hd) 0]
    rw [Nat.ofDigits_digits]
    ring

/-- `takeWhile`/`dropWhile` with the digit test split a rendered digit
string from a non-digit-headed tail exactly at the junction. -/
theorem takeWhile_digits_append (l rest : List Char)
    (hl : ∀ c ∈ l, isDigitCh c = true) (hr : headIsDigit rest = false) :
    (l ++ rest).takeWhile isDigitCh = l ∧ (l ++ rest).dropWhile isDigitCh = rest := by
  induction l with
  | nil =>
    simp only [List.nil_append]
    cases rest with
    | nil => exact ⟨rfl, rfl⟩
    | cons c t =>
      have hc : isDigitCh c = false := hr
      rw [List.takeWhile_cons, List.dropWhile_cons, hc]
      exact ⟨rfl, rfl⟩
  | cons c t ih =>
    have hc : isDigitCh c = true := hl c (List.mem_cons_self c t)
    obtain ⟨h1, h2⟩ := ih (fun x hx => hl x (List.mem_cons_of_mem c hx))
    rw [List.cons_append, List.takeWhile_cons, List.dropWhile_cons, hc]
    simp only [if_true]
    exact ⟨by rw [h1], h2⟩

/-- Parsing the rendered form of an integer recovers it, leaving a tail
that does not begin with a digit untouched. -/
theorem parseNumber_renderInt (i : Int) (rest : List Char)
    (hr : headIsDigit rest = false) :
    parseNumber (renderInt i ++ rest) = some (i, rest) := by
  cases i with
  | ofNat n =>
    obtain ⟨c, cs, hcons⟩ : ∃ c cs, renderNat n = c :: cs := by
      cases hn : renderNat n with
      | nil => exact absurd hn (renderNat_ne_nil n)
      | cons c cs => exact ⟨c, cs, rfl⟩
    have hcd : isDigitCh c = true := by
      refine renderNat_digits n c ?_
      rw [hcons]
      exact List.mem_cons_self c cs
    have hcm : c ≠ '-' := by
      intro hcontra
      rw [hcontra] at hcd
      exact absurd hcd (by decide)
    obtain ⟨htake, hdrop⟩ := takeWhile_digits_append (renderNat n) rest
      (renderNat_digits n) hr
    rw [hcons, List.cons_append] at htake hdrop
    have hdv : digitsVal (c :: cs) = n := by
      rw [← hcons]
      exact digitsVal_renderNat n
    show parseNumber (renderNat n ++ rest) = some (Int.ofNat n, rest)
    rw [hcons, List.cons_append]
    simp only [parseNumber]
    rw [if_neg hcm, htake, hdrop]
    rw [if_neg (by simp)]
    rw [hdv]
    rfl
  | negSucc m =>
    obtain ⟨htake, hdrop⟩ := takeWhile_digits_append (renderNat (m + 1)) rest
      (renderNat_digits (m + 1)) hr
    show parseNumber ( '-' :: renderNat (m + 1) ++ rest) = some (Int.negSucc m, rest)
    rw [List.cons_append]
    simp only [parseNumber]
    rw [if_pos trivial]
    rw [htake, hdrop]
    rw [if_neg (by simp [renderNat_ne_nil (m + 1)])]
    rw [digitsVal_renderNat]
    have : -((m + 1 : Nat) : Int) = Int.negSucc m := by
      rw [Int.negSucc_eq]
      push_cast
      ring
    rw [this]

/-- One-step unfolding of `parseStrBody` on a cons cell. -/
theorem parseStrBody_cons (c : Char) (rest : List Char) :
    parseStrBody (c :: rest) =
      (if c = quoteCh then some ([], rest)
       else if c = backslashCh then
         match rest with
         | [] => none
         | e :: rest2 =>
           if e = quoteCh ∨ e = backslashCh then
             match parseStrBody rest2 with
             | some (s, r) => some (e :: s, r)
             | none => none
           else none
       else
         match parseStrBody rest with
         | some (s, r) => some (c :: s, r)
         | none => none) := by
  rw [parseStrBody.eq_def]

/-- Parsing an escaped string body up to the closing quote recovers the
original characters. -/
theorem parseStrBody_escape (s rest : List Char) :
    parseStrBody (escapeStr s ++ (quoteCh :: rest)) = some (s, rest) := by
  induction s with
  | nil =>
    show parseStrBody (quoteCh :: rest) = some ([], rest)
    rw [parseStrBody_cons, if_pos rfl]
  | cons c t ih =>
    by_cases hc : c = quoteCh ∨ c = backslashCh
    · have hesc : escapeStr (c :: t) = backslashCh :: c :: escapeStr t := by
        rw [escapeStr, if_pos hc]
      rw [hesc, List.cons_append, List.cons_append]
      rw [parseStrBody_cons]
      rw [if_neg (by decide), if_pos rfl]
      show (if c = quoteCh ∨ c = backslashCh then
          match parseStrBody (escapeStr t ++ quoteCh :: rest) with
          | some (s, r) => some (c :: s, r)
          | none => none
        else none) = some (c :: t, rest)
      rw [if_pos hc, ih]
    · have hesc : escapeStr (c :: t) = c :: escapeStr t := by
        rw [escapeStr, if_neg hc]
      rw [not_or] at hc
      rw [hesc, List.cons_append]
      rw [parseStrBody_cons]
      rw [if_neg hc.1, if_neg hc.2, ih]

/-- A digit character is none of the characters the parser dispatches on. -/
theorem not_keyword_of_digit (c : Char) (h : isDigitCh c = true) :
    c ≠ 'n' ∧ c ≠ 't' ∧ c ≠ 'f' ∧ c ≠ quoteCh ∧ c ≠ '[' ∧ c ≠ lbraceCh := by
  refine ⟨?_, ?_, ?_, ?_, ?_, ?_⟩ <;>
    · intro hq
      rw [hq] at h
      revert h
      decide

/-- The first character of a rendered integer. -/
theorem renderInt_head (i : Int) :
    ∃ c cs, renderInt i = c :: cs ∧ (c = '-' ∨ isDigitCh c = true) := by
  cases i with
  | ofNat n =>
    cases hn : renderNat n with
    | nil => exact absurd hn (renderNat_ne_nil n)
    | cons c cs =>
      refine ⟨c, cs, hn, Or.inr ?_⟩
      refine renderNat_digits n c ?_
      rw [hn]
      exact List.mem_cons_self c cs
  | negSucc m => exact ⟨ '-', renderNat (m + 1), rfl, Or.inl rfl⟩

/-- A rendered integer's first character is none of the parser's dispatch
characters. -/
theorem renderInt_head_conds (c : Char) (hc : c = '-' ∨ isDigitCh c = true) :
    c ≠ 'n' ∧ c ≠ 't' ∧ c ≠ 'f' ∧ c ≠ quoteCh ∧ c ≠ '[' ∧ c ≠ lbraceCh := by
  rcases hc with rfl | hd
  · exact ⟨by decide, by decide, by decide, by decide, by decide, by decide⟩
  · exact not_keyword_of_digit c hd

/-- A rendered value never starts with a closing bracket or brace. -/
theorem render_head_ne (v : Json) :
    ∃ c cs, Json.render v = c :: cs ∧ c ≠ ']' ∧ c ≠ rbraceCh := by
  cases v with
  | null => exact ⟨ 'n', _, rfl, by decide, by decide⟩
  | bool b =>
    cases b with
    | true => exact ⟨ 't', _, rfl, by decide, by decide⟩
    | false => exact ⟨ 'f', _, rfl, by decide, by decide⟩
  | num i =>
    obtain ⟨c, cs, hcons, hc⟩ := renderInt_head i
    refine ⟨c, cs, hcons, ?_, ?_⟩ <;>
      · rcases hc with rfl | hd
        · decide
        · intro hq
          rw [hq] at hd
          revert hd
          decide
  | str s => exact ⟨quoteCh, _, rfl, by decide, by decide⟩
  | arr l =>
    cases l with
    | nil => exact ⟨ '[', _, rfl, by decide, by decide⟩
    | cons h t => exact ⟨ '[', _, rfl, by decide, by decide⟩
  | obj o =>
    cases o with
    | nil => exact ⟨lbraceCh, _, rfl, by decide, by decide⟩
    | cons k v t => exact ⟨lbraceCh, _, rfl, by decide, by decide⟩

/-- An array tail rendering never starts with a digit. -/
theorem headIsDigit_renderTailL (t : JsonList) (r : List Char) :
    headIsDigit (JsonList.renderTail t ++ r) = false := by
  cases t <;> rfl

/-- An object tail rendering never starts with a digit. -/
theorem headIsDigit_renderTailO (t : JsonObj) (r : List Char) :
    headIsDigit (JsonObj.renderTail t ++ r) = false := by
  cases t <;> rfl

/-- Parser depths are positive. -/
theorem weight_pos (v : Json) : 1 ≤ Json.weight v := by
  cases v with
  | arr l => cases l <;> simp [Json.weight]
  | obj o => cases o <;> simp [Json.weight]
  | null => simp [Json.weight]
  | bool b => simp [Json.weight]
  | num i => simp [Json.weight]
  | str s => simp [Json.weight]

/-- Array-tail parser depths are positive. -/
theorem weightL_pos (l : JsonList) : 1 ≤ JsonList.weightL l := by
  cases l <;> simp [JsonList.weightL]

/-- Object-tail parser depths are positive. -/
theorem weightO_pos (o : JsonObj) : 1 ≤ JsonObj.weightO o := by
  cases o <;> simp [JsonObj.weightO]

/-- One-step unfolding of `parseVal` at positive fuel on a cons cell. -/
theorem parseVal_cons (fuel : Nat) (c : Char) (rest : List Char) :
    parseVal (fuel + 1) (c :: rest) =
      (if c = 'n' then
        if rest.take 3 = [ 'u', 'l', 'l' ] then some (Json.null, rest.drop 3) else none
      else if c = 't' then
        if rest.take 3 = [ 'r', 'u', 'e' ] then some (Json.bool true, rest.drop 3) else none
      else if c = 'f' then
        if rest.take 4 = [ 'a', 'l', 's', 'e' ] then some (Json.bool false, rest.drop 4)
        else none
      else if c = quoteCh then
        match parseStrBody rest with
        | some (s, r) => some (Json.str s, r)
        | none => none
      else if c = '[' then
        match rest with
        | [] => none
        | c2 :: r2 =>
          if c2 = ']' then some (Json.arr JsonList.nil, r2)
          else
            match parseVal fuel rest with
            | some (v, r3) =>
              match parseListTail fuel r3 with
              | some (tl, r4) => some (Json.arr (JsonList.cons v tl), r4)
              | none => none
            | none => none
      else if c = lbraceCh then
        match rest with
        | [] => none
        | c2 :: r2 =>
          if c2 = rbraceCh then some (Json.obj JsonObj.nil, r2)
          else if c2 = quoteCh then
            match parseStrBody r2 with
            | some (k, r3) =>
              match r3 with
              | ':' :: r4 =>
                match parseVal fuel r4 with
                | some (v, r5) =>
                  match parseObjTail fuel r5 with
                  | some (o, r6) => some (Json.obj (JsonObj.cons k v o), r6)
                  | none => none
                | none => none
              | _ => none
            | none => none
          else none
      else
        match parseNumber (c :: rest) with
        | some (i, r) => some (Json.num i, r)
        | none => none) := by
  rfl

/-- One-step unfolding of `parseListTail` at positive fuel on a cons cell. -/
theorem parseListTail_cons (fuel : Nat) (c : Char) (rest : List Char) :
    parseListTail (fuel + 1) (c :: rest) =
      (if c = ']' then some (JsonList.nil, rest)
       else if c = ',' then
         match parseVal fuel rest with
         | some (v, r2) =>
           match parseListTail fuel r2 with
           | some (tl, r3) => some (JsonList.cons v tl, r3)
           | none => none
         | none => none
       else none) := by
  rfl

/-- One-step unfolding of `parseObjTail` at positive fuel on a cons cell. -/
theorem parseObjTail_cons (fuel : Nat) (c : Char) (rest : List Char) :
    parseObjTail (fuel + 1) (c :: rest) =
      (if c = rbraceCh then some (JsonObj.nil, rest)
       else if c = ',' then
         match rest with
         | [] => none
         | c2 :: r2 =>
           if c2 = quoteCh then
             match parseStrBody r2 with
             | some (k, r3) =>
               match r3 with
               | ':' :: r4 =>
                 match parseVal fuel r4 with
                 | some (v, r5) =>
                   match parseObjTail fuel r5 with
                   | some (o, r6) => some (JsonObj.cons k v o, r6)
                   | none => none
                 | none => none
               | _ => none
             | none => none
           else none
       else none) := by
  rfl

/-- Round trip of the JSON renderer and parser: with fuel at least the
parse depth, parsing a rendered value (or array/object tail) consumes
exactly it and returns it, for any tail not beginning with a digit. -/
theorem parse_render_good (fuel : Nat) :
    (∀ v : Json, Json.weight v ≤ fuel → ∀ rest, headIsDigit rest = false →
      parseVal fuel (Json.render v ++ rest) = some (v, rest)) ∧
    (∀ l : JsonList, JsonList.weightL l ≤ fuel → ∀ rest,
      parseListTail fuel (JsonList.renderTail l ++ rest) = some (l, rest)) ∧
    (∀ o : JsonObj, JsonObj.weightO o ≤ fuel → ∀ rest,
      parseObjTail fuel (JsonObj.renderTail o ++ rest) = some (o, rest)) := by
  induction fuel with
  | zero =>
    refine ⟨?_, ?_, ?_⟩
    · intro v hw
      exact absurd hw (by have := weight_pos v; omega)
    · intro l hw
      exact absurd hw (by have := weightL_pos l; omega)
    · intro o hw
      exact absurd hw (by have := weightO_pos o; omega)
  | succ f ih =>
    obtain ⟨ihV, ihL, ihO⟩ := ih
    refine ⟨?_, ?_, ?_⟩
    · intro v hw rest hrest
      cases v with
      | null => rfl
      | bool b => cases b <;> rfl
      | num i =>
        obtain ⟨c, cs, hcons, hc⟩ := renderInt_head i
        obtain ⟨h1, h2, h3, h4, h5, h6⟩ := renderInt_head_conds c hc
        show parseVal (f + 1) (renderInt i ++ rest) = _
        rw [hcons, List.cons_append, parseVal_cons]
        rw [if_neg h1, if_neg h2, if_neg h3, if_neg h4, if_neg h5, if_neg h6]
        rw [← List.cons_append, ← hcons, parseNumber_renderInt i rest hrest]
      | str s =>
        have hsplit : Json.render (Json.str s) ++ rest
            = quoteCh :: (escapeStr s ++ (quoteCh :: rest)) := by
          show (quoteCh :: (escapeStr s ++ [quoteCh])) ++ rest = _
          rw [List.cons_append, List.append_assoc]
          rfl
        rw [hsplit, parseVal_cons]
        rw [if_neg (by decide), if_neg (by decide), if_neg (by decide), if_pos rfl]
        rw [parseStrBody_escape]
      | arr l =>
        cases l with
        | nil => rfl
        | cons h t =>
          have hw' : 1 + max (Json.weight h) (JsonList.weightL t) ≤ f + 1 := hw
          have hmax : max (Json.weight h) (JsonList.weightL t) ≤ f := by omega
          have hwh : Json.weight h ≤ f := le_trans (le_max_left _ _) hmax
          have hwt : JsonList.weightL t ≤ f := le_trans (le_max_right _ _) hmax
          have hsplit : Json.render (Json.arr (JsonList.cons h t)) ++ rest
              = '[' :: (Json.render h ++ (JsonList.renderTail t ++ rest)) := by
            show ( '[' :: (Json.render h ++ JsonList.renderTail t)) ++ rest = _
            rw [List.cons_append, List.append_assoc]
          rw [hsplit, parseVal_cons]
          rw [if_neg (by decide), if_neg (by decide), if_neg (by decide),
            if_neg (by decide), if_pos rfl]
          obtain ⟨c2, cs2, hc2, hne2, _⟩ := render_head_ne h
          rw [hc2, List.cons_append]
          simp only []
          rw [if_neg hne2]
          rw [← List.cons_append, ← hc2]
          rw [ihV h hwh _ (headIsDigit_renderTailL t rest)]
          simp only []
          rw [ihL t hwt rest]
      | obj o =>
        cases o with
        | nil => rfl
        | cons k v t =>
          have hw' : 1 + max (Json.weight v) (JsonObj.weightO t) ≤ f + 1 := hw
          have hmax : max (Json.weight v) (JsonObj.weightO t) ≤ f := by omega
          have hwv : Json.weight v ≤ f := le_trans (le_max_left _ _) hmax
          have hwt : JsonObj.weightO t ≤ f := le_trans (le_max_right _ _) hmax
          have hsplit : Json.render (Json.obj (JsonObj.cons k v t)) ++ rest
              = lbraceCh :: (quoteCh :: (escapeStr k ++ (quoteCh :: ( ':' ::
                (Json.render v ++ (JsonObj.renderTail t ++ rest)))))) := by
            show (lbraceCh :: (renderKey k ++ Json.render v ++ JsonObj.renderTail t))
              ++ rest = _
            simp [renderKey, List.append_assoc]
          rw [hsplit, parseVal_cons]
          rw [if_neg (by decide), if_neg (by decide), if_neg (by decide),
            if_neg (by decide), if_neg (by decide), if_pos rfl]
          simp only []
          rw [if_pos trivial]
          rw [parseStrBody_escape k
            ( ':' :: (Json.render v ++ (JsonObj.renderTail t ++ rest)))]
          simp only []
          rw [ihV v hwv _ (headIsDigit_renderTailO t rest)]
          simp only []
          rw [ihO t hwt rest]
          rw [if_neg (by decide : ¬ quoteCh = rbraceCh)]
    · intro l hl rest
      cases l with
      | nil => rfl
      | cons h t =>
        have hw' : 1 + max (Json.weight h) (JsonList.weightL t) ≤ f + 1 := hl
        have hmax : max (Json.weight h) (JsonList.weightL t) ≤ f := by omega
        have hwh : Json.weight h ≤ f := le_trans (le_max_left _ _) hmax
        have hwt : JsonList.weightL t ≤ f := le_trans (le_max_right _ _) hmax
        have hsplit : JsonList.renderTail (JsonList.cons h t) ++ rest
            = ',' :: (Json.render h ++ (JsonList.renderTail t ++ rest)) := by
          show ( ',' :: (Json.render h ++ JsonList.renderTail t)) ++ rest = _
          rw [List.cons_append, List.append_assoc]
        rw [hsplit, parseListTail_cons]
        rw [if_neg (by decide), if_pos rfl]
        rw [ihV h hwh _ (headIsDigit_renderTailL t rest)]
        simp only []
        rw [ihL t hwt rest]
    · intro o ho rest
      cases o with
      | nil => rfl
      | cons k v t =>
        have hw' : 1 + max (Json.weight v) (JsonObj.weightO t) ≤ f + 1 := ho
        have hmax : max (Json.weight v) (JsonObj.weightO t) ≤ f := by omega
        have hwv : Json.weight v ≤ f := le_trans (le_max_left _ _) hmax
        have hwt : JsonObj.weightO t ≤ f := le_trans (le_max_right _ _) hmax
        have hsplit : JsonObj.renderTail (JsonObj.cons k v t) ++ rest
            = ',' :: (quoteCh :: (escapeStr k ++ (quoteCh :: ( ':' ::
              (Json.render v ++ (JsonObj.renderTail t ++ rest)))))) := by
          show ( ',' :: (renderKey k ++ Json.render v ++ JsonObj.renderTail t))
            ++ rest = _
          simp [renderKey, List.append_assoc]
        rw [hsplit, parseObjTail_cons]
        rw [if_neg (by decide), if_pos rfl]
        simp only []
        rw [if_pos trivial]
        rw [parseStrBody_escape k
          ( ':' :: (Json.render v ++ (JsonObj.renderTail t ++ rest)))]
        simp only []
        rw [ihV v hwv _ (headIsDigit_renderTailO t rest)]
        simp only []
        rw [ihO t hwt rest]

mutual
/-- The parse depth of a value is bounded by its rendered length. -/
theorem weight_le_len : ∀ v : Json, Json.weight v ≤ (Json.render v).length
  | Json.null => by decide
  | Json.bool b => by cases b <;> decide
  | Json.num i => by
      show 1 ≤ (renderInt i).length
      obtain ⟨c, cs, hcons, _⟩ := renderInt_head i
      rw [hcons]
      simp
  | Json.str s => by
      show 1 ≤ (quoteCh :: escapeStr s ++ [quoteCh]).length
      simp
  | Json.arr JsonList.nil => by decide
  | Json.arr (JsonList.cons h t) => by
      have hv := weight_le_len h
      have ht := weightL_le_len t
      show 1 + max (Json.weight h) (JsonList.weightL t)
        ≤ ( '[' :: (Json.render h ++ JsonList.renderTail t)).length
      simp only [List.length_cons, List.length_append]
      have hm : max (Json.weight h) (JsonList.weightL t)
          ≤ (Json.render h).length + (JsonList.renderTail t).length :=
        max_le (le_trans hv (Nat.le_add_right _ _)) (le_trans ht (Nat.le_add_left _ _))
      omega
  | Json.obj JsonObj.nil => by decide
  | Json.obj (JsonObj.cons k v t) => by
      have hv := weight_le_len v
      have ht := weightO_le_len t
      show 1 + max (Json.weight v) (JsonObj.weightO t)
        ≤ (lbraceCh :: (renderKey k ++ Json.render v ++ JsonObj.renderTail t)).length
      simp only [List.length_cons, List.length_append]
      have hm : max (Json.weight v) (JsonObj.weightO t)
          ≤ (Json.render v).length + (JsonObj.renderTail t).length :=
        max_le (le_trans hv (Nat.le_add_right _ _)) (le_trans ht (Nat.le_add_left _ _))
      omega

/-- The parse depth of an array tail is bounded by its rendered length. -/
theorem weightL_le_len : ∀ l : JsonList, JsonList.weightL l ≤ (JsonList.renderTail l).length
  | JsonList.nil => by decide
  | JsonList.cons h t => by
      have hv := weight_le_len h
      have ht := weightL_le_len t
      show 1 + max (Json.weight h) (JsonList.weightL t)
        ≤ ( ',' :: (Json.render h ++ JsonList.renderTail t)).length
      simp only [List.length_cons, List.length_append]
      have hm : max (Json.weight h) (JsonList.weightL t)
          ≤ (Json.render h).length + (JsonList.renderTail t).length :=
        max_le (le_trans hv (Nat.le_add_right _ _)) (le_trans ht (Nat.le_add_left _ _))
      omega

/-- The parse depth of an object tail is bounded by its rendered length. -/
theorem weightO_le_len : ∀ o : JsonObj, JsonObj.weightO o ≤ (JsonObj.renderTail o).length
  | JsonObj.nil => by decide
  | JsonObj.cons k v t => by
      have hv := weight_le_len v
      have ht := weightO_le_len t
      show 1 + max (Json.weight v) (JsonObj.weightO t)
        ≤ ( ',' :: (renderKey k ++ Json.render v ++ JsonObj.renderTail t)).length
      simp only [List.length_cons, List.length_append]
      have hm : max (Json.weight v) (JsonObj.weightO t)
          ≤ (Json.render v).length + (JsonObj.renderTail t).length :=
        max_le (le_trans hv (Nat.le_add_right _ _)) (le_trans ht (Nat.le_add_left _ _))
      omega
end

/-- JSON.parse recovers any rendered value: the modelled platform
round-trip. -/
theorem parseJson_render (v : Json) : parseJson (Json.render v) = some v := by
  have h := (parse_render_good ((Json.render v).length + 1)).1 v
    (le_trans (weight_le_len v) (Nat.le_succ _)) [] rfl
  rw [List.append_nil] at h
  unfold parseJson
  rw [h]

/-- Rendered values are never the empty string (so they are truthy as
JavaScript strings). -/
theorem render_ne_nil (v : Json) : Json.render v ≠ [] := by
  obtain ⟨c, cs, hcons, _, _⟩ := render_head_ne v
  rw [hcons]
  exact List.cons_ne_nil c cs

/-- Decoding a stored field that was produced by the serializer recovers
the original optional value: an absent value is stored absent, a present
value is stored as its (non-empty, hence truthy) rendering. -/
theorem decodeStoredField_render (b : Option Json) :
    decodeStoredField (b.map Json.render) = some b := by
  cases b with
  | none => rfl
  | some v =>
    show decodeStoredField (some (Json.render v)) = some (some v)
    unfold decodeStoredField
    obtain ⟨c, cs, hcons, _, _⟩ := render_head_ne v
    rw [hcons]
    show (if (c :: cs).isEmpty then some none
      else match parseJson (c :: cs) with
        | some v2 => some (some v2)
        | none => none) = some (some v)
    rw [if_neg (by simp)]
    rw [← hcons, parseJson_render v]

/-- C9: storing an entry and reading it back is lossless — the JSON
serialization `put` applies to `request.body` and `metadata` and the
decoding `deserializeEntry` applies on read compose to the identity, for
every entry (absent body or metadata included). -/
theorem C9_serialization_roundtrip (e : LedgerEntry) :
    deserializeEntry (serializeEntry e) = some e := by
  obtain ⟨eid, ⟨url, method, headers, body⟩, status, ac, ca, la, err, ik, md⟩ := e
  cases md with
  | none =>
    cases body with
    | none => rfl
    | some v =>
      have hb : decodeStoredField (some (Json.render v)) = some (some v) :=
        decodeStoredField_render (some v)
      simp only [serializeEntry, deserializeEntry, Option.map_some', Option.map_none']
      rw [hb]
      rfl
  | some o =>
    have ho : decodeStoredField (some (Json.render (Json.obj o)))
        = some (some (Json.obj o)) :=
      decodeStoredField_render (some (Json.obj o))
    cases body with
    | none =>
      simp only [serializeEntry, deserializeEntry, Option.map_some', Option.map_none']
      rw [ho]
      rfl
    | some v =>
      have hb : decodeStoredField (some (Json.render v)) = some (some v) :=
        decodeStoredField_render (some v)
      simp only [serializeEntry, deserializeEntry, Option.map_some', Option.map_none']
      rw [hb, ho]
      rfl
